import Mathlib

/-!
Shallow embedding of the `tracing_vec` crate (file `src/tracing_vec.rs`).

A `TracingVec` keeps every value ever inserted in an append-only arena
(`mem`), and a chain of orderings (`snapshots`), each ordering being a list
of arena positions.  Mutations are translated statement by statement from
the Rust source; methods taking `&mut self` become functions returning the
new state, and fallible methods return `Except IndexError`.
-/

/-- Modelled from the spec: a version-stable coordinate, `(position, pseudotime)`.
The type lives in the crate module `index`, which is not part of the given
sources; its fields are exactly the ones used by `tracing_vec.rs`. -/
structure TimedIndex where
  pos : Nat
  pseudotime : Nat
deriving DecidableEq

/-- Modelled from the spec: a content-stable identifier, a bare arena position.
The type lives in the crate module `index`, which is not part of the given
sources; its field is exactly the one used by `tracing_vec.rs`. -/
structure TimelessIndex where
  pos : Nat
deriving DecidableEq

/-- Modelled from the spec: the generalized coordinate, a tagged union of the
two coordinate kinds (crate module `index`). -/
inductive TracingIndex where
  | Timed (index : TimedIndex)
  | Timeless (index : TimelessIndex)
deriving DecidableEq

/-- Modelled from the spec: the error taxonomy of coordinate resolution
(crate module `index`), with the payloads used by `tracing_vec.rs`. -/
inductive IndexError where
  | NoIndicesProvided
  | VersionDoesNotExist (index : TimedIndex)
  | IndexOutOfBounds (index : TimedIndex)
  | DataDoesNotExist (index : TimelessIndex)
  | DataAlreadyDead (index : TimelessIndex)
deriving DecidableEq

/-- Arena entry: a stored value together with the pseudotime of its creation. -/
structure Trace (X : Type) where
  val : X
  birth : Nat
deriving DecidableEq

instance {X : Type} [Inhabited X] : Inhabited (Trace X) := ⟨⟨default, 0⟩⟩

/-- The tracing vector: arena `mem` plus the version chain `snapshots`. -/
structure TracingVec (X : Type) where
  mem : List (Trace X)
  snapshots : List (List Nat)
deriving DecidableEq

/-- Models `Vec::insert` on the orderings, totalized: when the index
exceeds the length Rust panics, while this model appends at the end.  That
case is reachable at the replace-family call sites (an anchor position can
exceed the ordering shortened by the removals), so theorems about those
call sites carry an explicit in-bounds hypothesis and `vec_insert_checked`
below exposes the panic as `none`. -/
def vec_insert {α : Type} : Nat → α → List α → List α
  | 0, a, l => a :: l
  | _ + 1, a, [] => [a]
  | n + 1, a, b :: l => b :: vec_insert n a l

/-- Models the scan in `latest_index`:
`refs().enumerate().filter(|(_, rf)| *rf == pos).next()`, i.e. the index of
the first occurrence of `pos`.  Rust unwraps the option; the call site is
guarded by `is_alive`, so the empty case is unreachable and defaults to 0. -/
def find_position (pos : Nat) : List Nat → Nat
  | [] => 0
  | r :: rest => if r = pos then 0 else find_position pos rest + 1

namespace TracingVec

variable {X : Type}

/-- Constructor `new`: empty arena, a single empty ordering. -/
def new : TracingVec X := { mem := [], snapshots := [[]] }

/-- The `From<Vec<X>>` impl: arena seeded with all values at birth 0, one
ordering listing them in order. -/
def fromList (l : List X) : TracingVec X :=
  { mem := l.map (fun val => { val := val, birth := 0 }),
    snapshots := [List.range l.length] }

/-- Method `pseudotime`: version chain length minus one. -/
def pseudotime (s : TracingVec X) : Nat := s.snapshots.length - 1

/-- Method `last_obj_index`: arena length minus one. -/
def last_obj_index (s : TracingVec X) : Nat := s.mem.length - 1

/-- Method `latest_snapshot`: `snapshots.last().unwrap()`.  The chain is
never empty in any reachable state; the model defaults to `[]`. -/
def latest_snapshot (s : TracingVec X) : List Nat := s.snapshots.getLastD []

/-- Writing through `latest_snapshot_mut` / `snapshots.last_mut()`:
replace the last ordering of the chain. -/
def set_latest (s : TracingVec X) (snap : List Nat) : TracingVec X :=
  { s with snapshots := s.snapshots.dropLast ++ [snap] }

/-- Method `new_snapshot`: push a clone of the latest ordering.  (The Rust
method also returns a mutable borrow of the clone; mutation through that
borrow is modelled by a subsequent `set_latest`.) -/
def new_snapshot (s : TracingVec X) : TracingVec X :=
  { s with snapshots := s.snapshots ++ [s.latest_snapshot] }

/-- Method `refs`: the positions listed by the latest ordering. -/
def refs (s : TracingVec X) : List Nat := s.latest_snapshot

/-- Method `val_location`. -/
def val_location (s : TracingVec X) (index : TimedIndex) : Except IndexError Nat :=
  match s.snapshots[index.pseudotime]? with
  | none => .error (.VersionDoesNotExist index)
  | some snapshot =>
    match snapshot[index.pos]? with
    | none => .error (.IndexOutOfBounds index)
    | some pos => .ok pos

/-- Method `into_timeless`. -/
def into_timeless (s : TracingVec X) (index : TracingIndex) : Except IndexError TimelessIndex :=
  match index with
  | .Timed index =>
    match s.val_location index with
    | .error e => .error e
    | .ok pos => .ok { pos := pos }
  | .Timeless index =>
    if s.mem.length > index.pos then .ok index
    else .error (.DataDoesNotExist index)

/-- Method `is_alive`. -/
def is_alive (s : TracingVec X) (index : TracingIndex) : Bool :=
  match s.into_timeless index with
  | .ok idx => decide (idx.pos ∈ s.latest_snapshot)
  | .error _ => false

/-- Method `contains`. -/
def contains (s : TracingVec X) (index : TracingIndex) : Bool :=
  match s.into_timeless index with
  | .ok _ => true
  | .error _ => false

/-- Method `latest_index`. -/
def latest_index (s : TracingVec X) (index : TracingIndex) : Except IndexError Nat :=
  match s.into_timeless index with
  | .error e => .error e
  | .ok idx =>
    if s.is_alive (.Timeless idx) then .ok (find_position idx.pos s.refs)
    else .error (.DataAlreadyDead idx)

/-- Method `into_timed`. -/
def into_timed (s : TracingVec X) (index : TracingIndex) : Except IndexError TimedIndex :=
  match s.latest_index index with
  | .error e => .error e
  | .ok pos => .ok { pos := pos, pseudotime := s.pseudotime }

/-- Method `is_before`. -/
def is_before (s : TracingVec X) (a b : TracingIndex) : Except IndexError Bool :=
  match s.latest_index a with
  | .error e => .error e
  | .ok pa =>
    match s.latest_index b with
    | .error e => .error e
    | .ok pb => .ok (decide (pa ≤ pb))

/-- Method `get`.  Rust indexes the arena directly (`&self.mem[index.pos]`),
which cannot fail once `into_timeless` succeeded on a timeless index; the
model totalizes the lookup with `getD`. -/
def get [Inhabited X] (s : TracingVec X) (index : TracingIndex) : Except IndexError X :=
  match s.into_timeless index with
  | .error e => .error e
  | .ok idx => .ok (s.mem.getD idx.pos default).val

/-- Method `push`: allocate an arena entry, then append its position to the
latest ordering in place. -/
def push (s : TracingVec X) (val : X) : TracingVec X :=
  let birth := s.pseudotime
  let s1 : TracingVec X := { s with mem := s.mem ++ [{ val := val, birth := birth }] }
  let tracing_index := s1.last_obj_index
  s1.set_latest (s1.latest_snapshot ++ [tracing_index])

/-- Method `pop`: `self.new_snapshot().pop()`. -/
def pop (s : TracingVec X) : Option TimelessIndex × TracingVec X :=
  let s1 := s.new_snapshot
  match s1.latest_snapshot.getLast? with
  | none => (none, s1)
  | some pos => (some { pos := pos }, s1.set_latest s1.latest_snapshot.dropLast)

/-- Method `try_insert`. -/
def try_insert (s : TracingVec X) (absolute_index : Nat) (val : X) :
    Except IndexError TimedIndex × TracingVec X :=
  let birth := s.pseudotime + 1
  let s1 : TracingVec X := { s with mem := s.mem ++ [{ val := val, birth := birth }] }
  let tracing_index := s1.last_obj_index
  let s2 := s1.new_snapshot
  let s3 := s2.set_latest (vec_insert absolute_index tracing_index s2.latest_snapshot)
  (.ok { pos := absolute_index, pseudotime := birth }, s3)

/-- Method `try_insert_before`. -/
def try_insert_before (s : TracingVec X) (index : TracingIndex) (val : X) :
    Except IndexError TimedIndex × TracingVec X :=
  match s.latest_index index with
  | .error e => (.error e, s)
  | .ok absolute_index => s.try_insert absolute_index val

/-- Method `try_insert_after`. -/
def try_insert_after (s : TracingVec X) (index : TracingIndex) (val : X) :
    Except IndexError TimedIndex × TracingVec X :=
  match s.latest_index index with
  | .error e => (.error e, s)
  | .ok absolute_index => s.try_insert (absolute_index + 1) val

/-- Method `try_remove`.  `Vec::remove` returns the element at the index
(panicking when out of bounds, which the resolved index rules out) and
shifts the rest down; the model reads with `getD` and erases. -/
def try_remove (s : TracingVec X) (index : TracingIndex) :
    Except IndexError TimelessIndex × TracingVec X :=
  match s.latest_index index with
  | .error e => (.error e, s)
  | .ok absolute_index =>
    let s1 := s.new_snapshot
    let snap := s1.latest_snapshot
    let pos := snap.getD absolute_index 0
    (.ok { pos := pos }, s1.set_latest (snap.eraseIdx absolute_index))

/-- Resolution loop of `try_remove_all`: walk the enumerated coordinate list
and resolve each one with `latest_index`, keeping the enumeration position;
the first failure aborts with its error. -/
def resolve_loop (s : TracingVec X) : List (Nat × TracingIndex) → Except IndexError (List (Nat × Nat))
  | [] => .ok []
  | (position, index) :: rest =>
    match s.latest_index index with
    | .error e => .error e
    | .ok abs =>
      match resolve_loop s rest with
      | .error e => .error e
      | .ok tail => .ok ((position, abs) :: tail)

/-- The whole resolution pass of `try_remove_all` over the enumerated input. -/
def resolve_all (s : TracingVec X) (indices : List TracingIndex) :
    Except IndexError (List (Nat × Nat)) :=
  resolve_loop s indices.enum

/-- The interleaved-positions loop of `try_remove_all`:
`for (_, abs) in absolute_indices { for pos in last_pos..abs { push pos }; last_pos = abs + 1 }`. -/
def interleave_loop : Nat → List Nat → List Nat
  | _, [] => []
  | last_pos, abs :: rest => List.range' last_pos (abs - last_pos) ++ interleave_loop (abs + 1) rest

/-- Models `Vec::sort_by(|a, b| a.1.cmp(&b.1))` by the second component of the
pairs (the resolved absolute position).  Rust `sort_by` is stable; insertion
sort placing an element before later elements with an equal key is stable too. -/
def sort_insert (x : Nat × Nat) : List (Nat × Nat) → List (Nat × Nat)
  | [] => [x]
  | y :: l => if x.2 ≤ y.2 then x :: y :: l else y :: sort_insert x l

/-- Stable sort of the `(enumeration position, absolute position)` pairs by
absolute position, modelling the `sort_by` call in `try_remove_all`. -/
def sort_by_abs : List (Nat × Nat) → List (Nat × Nat)
  | [] => []
  | x :: l => sort_insert x (sort_by_abs l)

/-- Removal loop of `try_remove_all`: process the sorted pairs from highest
absolute position to lowest, erase each from the ordering and record the
removed arena position at the pair's enumeration position.  Totalized: an
out-of-bounds `Vec::remove` panics in Rust but becomes a no-op erase with a
`getD` 0 read here; that case is reachable when a duplicated resolved
position sits at the ordering's last index, so theorems about this loop
restrict to pairwise distinct resolved positions and `remove_loop_checked`
below exposes the panic as `none`. -/
def remove_loop : List Nat → List (Option TimelessIndex) → List (Nat × Nat) →
    List Nat × List (Option TimelessIndex)
  | snap, removed, [] => (snap, removed)
  | snap, removed, (position, index) :: rest =>
    let pos := snap.getD index 0
    remove_loop (snap.eraseIdx index) (removed.set position (some { pos := pos })) rest

/-- Method `try_remove_all`.  The `Option::unwrap` mapping the removed slots
cannot fail (every enumeration position is written exactly once); the model
totalizes it with `getD`. -/
def try_remove_all (s : TracingVec X) (indices : List TracingIndex) :
    Except IndexError (List Nat × List TimelessIndex) × TracingVec X :=
  if indices.isEmpty then (.error .NoIndicesProvided, s)
  else
    match s.resolve_all indices with
    | .error e => (.error e, s)
    | .ok absolute_indices =>
      let first := (absolute_indices.headD (0, 0)).2
      let interleaved_positions := first :: interleave_loop first (absolute_indices.map (·.2))
      let sorted := sort_by_abs absolute_indices
      let s1 := s.new_snapshot
      let start : List (Option TimelessIndex) := List.replicate absolute_indices.length none
      let step := remove_loop s1.latest_snapshot start sorted.reverse
      (.ok (interleaved_positions, step.2.map (fun o => o.getD { pos := 0 })),
        s1.set_latest step.1)

/-- Method `try_replace`. -/
def try_replace (s : TracingVec X) (indices : List TracingIndex) (val : X) :
    Except IndexError (List TimelessIndex) × TracingVec X :=
  match s.try_remove_all indices with
  | (.error e, s1) => (.error e, s1)
  | (.ok (indices1, removed), s1) =>
    let birth := s1.pseudotime
    let s2 : TracingVec X := { s1 with mem := s1.mem ++ [{ val := val, birth := birth }] }
    let tracing_index := s2.last_obj_index
    let s3 := s2.set_latest (vec_insert (indices1.headD 0) tracing_index s2.latest_snapshot)
    (.ok removed, s3)

/-- Method `try_replace_choose`.  The `self.get(index).ok().cloned().unwrap()`
for each removed identifier cannot fail (removed arena positions stay within
the arena); the model totalizes the unwrap with `default`. -/
def try_replace_choose [Inhabited X] (s : TracingVec X) (indices : List TracingIndex)
    (choose : List Nat → Nat) (f : List X → X) :
    Except IndexError TimedIndex × TracingVec X :=
  match s.try_remove_all indices with
  | (.error e, s1) => (.error e, s1)
  | (.ok (interleaved_positions, removed), s1) =>
    let chosen := choose interleaved_positions
    let removed_vals := removed.map (fun index =>
      match s1.get (.Timeless index) with
      | .ok v => v
      | .error _ => default)
    let val := f removed_vals
    let birth := s1.pseudotime
    let s2 : TracingVec X := { s1 with mem := s1.mem ++ [{ val := val, birth := birth }] }
    let tracing_index := s2.last_obj_index
    let s3 := s2.set_latest (vec_insert chosen tracing_index s2.latest_snapshot)
    (.ok { pos := chosen, pseudotime := birth }, s3)

/-- Method `try_replace_with`: anchor at `indices[0]` (Rust indexing panics on
an empty list, which cannot happen; the model defaults to 0). -/
def try_replace_with [Inhabited X] (s : TracingVec X) (indices : List TracingIndex)
    (f : List X → X) : Except IndexError TimedIndex × TracingVec X :=
  s.try_replace_choose indices (fun l => l.headD 0) f

/-- Method `try_replace_at_last_with`: anchor at `indices.last().unwrap()`
(the list is never empty; the model defaults to 0). -/
def try_replace_at_last_with [Inhabited X] (s : TracingVec X) (indices : List TracingIndex)
    (f : List X → X) : Except IndexError TimedIndex × TracingVec X :=
  s.try_replace_choose indices (fun l => l.getLastD 0) f

end TracingVec

/-- One structural mutation of a tracing vector, used to quantify over
arbitrary sequences of later edits. -/
inductive Mutation (X : Type) where
  | push (val : X)
  | pop
  | insert_before (index : TracingIndex) (val : X)
  | insert_after (index : TracingIndex) (val : X)
  | remove (index : TracingIndex)
  | replace (indices : List TracingIndex) (val : X)
  | replace_with (indices : List TracingIndex) (f : List X → X)
  | replace_at_last_with (indices : List TracingIndex) (f : List X → X)

namespace TracingVec

/-- The state after running one mutation (the result value is discarded). -/
def applyMutation [Inhabited X] (s : TracingVec X) : Mutation X → TracingVec X
  | .push val => s.push val
  | .pop => (s.pop).2
  | .insert_before index val => (s.try_insert_before index val).2
  | .insert_after index val => (s.try_insert_after index val).2
  | .remove index => (s.try_remove index).2
  | .replace indices val => (s.try_replace indices val).2
  | .replace_with indices f => (s.try_replace_with indices f).2
  | .replace_at_last_with indices f => (s.try_replace_at_last_with indices f).2

/-- The state after running a whole list of mutations in order. -/
def applyMutations [Inhabited X] (s : TracingVec X) : List (Mutation X) → TracingVec X
  | [] => s
  | m :: ms => applyMutations (s.applyMutation m) ms

end TracingVec

section Helpers

variable {X : Type}

lemma getLastD_concat_nat (S : List (List Nat)) (x : List Nat) :
    (S ++ [x]).getLastD [] = x := by
  simp [List.getLastD_eq_getLast?, List.getLast?_concat]

lemma getElem?_append_lt {α : Type} (l₁ l₂ : List α) {t : Nat} (h : t < l₁.length) :
    (l₁ ++ l₂)[t]? = l₁[t]? := by
  rw [List.getElem?_append, if_pos h]

namespace TracingVec

@[simp] lemma set_latest_mem (s : TracingVec X) (l : List Nat) :
    (s.set_latest l).mem = s.mem := rfl

@[simp] lemma set_latest_snapshots (s : TracingVec X) (l : List Nat) :
    (s.set_latest l).snapshots = s.snapshots.dropLast ++ [l] := rfl

@[simp] lemma new_snapshot_mem (s : TracingVec X) : s.new_snapshot.mem = s.mem := rfl

@[simp] lemma new_snapshot_snapshots (s : TracingVec X) :
    s.new_snapshot.snapshots = s.snapshots ++ [s.latest_snapshot] := rfl

@[simp] lemma latest_snapshot_set_latest (s : TracingVec X) (l : List Nat) :
    (s.set_latest l).latest_snapshot = l := by
  simp [latest_snapshot, getLastD_concat_nat]

@[simp] lemma latest_snapshot_new_snapshot (s : TracingVec X) :
    s.new_snapshot.latest_snapshot = s.latest_snapshot := by
  simp [latest_snapshot, new_snapshot, getLastD_concat_nat]

lemma latest_snapshot_mk (mem : List (Trace X)) (S : List (List Nat)) :
    (TracingVec.mk mem S).latest_snapshot = S.getLastD [] := rfl

lemma latest_snapshot_eq_getElem? (s : TracingVec X) (h : s.snapshots ≠ []) :
    s.snapshots[s.snapshots.length - 1]? = some s.latest_snapshot := by
  rw [latest_snapshot, List.getLastD_eq_getLast?]
  rw [← List.getLast?_eq_getElem?]
  rcases e : s.snapshots.getLast? with _ | x
  · exact absurd (List.getLast?_eq_none_iff.mp e) h
  · rfl

end TracingVec

/-- Every ordering present in `S` is still present, entry for entry, in `T`
(new entries may have been appended to the last ordering, and whole new
orderings may have been appended to the chain). -/
def SnapExtends (S T : List (List Nat)) : Prop :=
  ∀ (t : Nat) (snap : List Nat), S[t]? = some snap →
    ∃ snap2, T[t]? = some snap2 ∧ ∀ (p b : Nat), snap[p]? = some b → snap2[p]? = some b

lemma snapExtends_refl (S : List (List Nat)) : SnapExtends S S :=
  fun _ snap h => ⟨snap, h, fun _ _ hb => hb⟩

lemma snapExtends_append (S : List (List Nat)) (x : List Nat) :
    SnapExtends S (S ++ [x]) := by
  intro t snap h
  have ht : t < S.length := by
    by_contra hge
    rw [List.getElem?_eq_none (Nat.le_of_not_lt hge)] at h
    exact Option.noConfusion h
  exact ⟨snap, by rw [getElem?_append_lt _ _ ht]; exact h, fun _ _ hb => hb⟩

lemma snapExtends_push_shape (S : List (List Nat)) (ti : Nat) :
    SnapExtends S (S.dropLast ++ [S.getLastD [] ++ [ti]]) := by
  intro t snap h
  have ht : t < S.length := by
    by_contra hge
    rw [List.getElem?_eq_none (Nat.le_of_not_lt hge)] at h
    exact Option.noConfusion h
  by_cases hlt : t < S.length - 1
  · refine ⟨snap, ?_, fun _ _ hb => hb⟩
    rw [getElem?_append_lt _ _ (by simpa using hlt), List.getElem?_dropLast, if_pos hlt]
    exact h
  · have hteq : t = S.length - 1 := by omega
    have hgl : S.getLastD [] = snap := by
      have := List.getLastD_eq_getLast? ([] : List Nat) S
      rw [List.getLast?_eq_getElem?] at this
      rw [this, ← hteq, h]
      rfl
    refine ⟨snap ++ [ti], ?_, ?_⟩
    · rw [List.getElem?_append, if_neg (by simp; omega)]
      have : t - S.dropLast.length = 0 := by simp; omega
      rw [this, hgl]
      rfl
    · intro p b hb
      have hp : p < snap.length := by
        by_contra hge
        rw [List.getElem?_eq_none (Nat.le_of_not_lt hge)] at hb
        exact Option.noConfusion hb
      rw [getElem?_append_lt _ _ hp]
      exact hb

namespace TracingVec

lemma val_location_ok_iff (s : TracingVec X) (idx : TimedIndex) (a : Nat) :
    s.val_location idx = .ok a ↔
      ∃ snap, s.snapshots[idx.pseudotime]? = some snap ∧ snap[idx.pos]? = some a := by
  unfold val_location
  constructor
  · intro h
    split at h
    · exact absurd h (by simp)
    · rename_i snap e1
      split at h
      · exact absurd h (by simp)
      · rename_i pos e2
        simp only [Except.ok.injEq] at h
        exact ⟨snap, e1, h ▸ e2⟩
  · rintro ⟨snap, e1, e2⟩
    simp [e1, e2]

lemma val_location_mono {s s' : TracingVec X} (h : SnapExtends s.snapshots s'.snapshots)
    {idx : TimedIndex} {a : Nat} (hv : s.val_location idx = .ok a) :
    s'.val_location idx = .ok a := by
  rw [val_location_ok_iff] at hv ⊢
  obtain ⟨snap, e1, e2⟩ := hv
  obtain ⟨snap2, h1, h2⟩ := h idx.pseudotime snap e1
  exact ⟨snap2, h1, h2 idx.pos a e2⟩

end TracingVec

/-- The shape every single mutation gives to the state: the arena is only
appended to, and the version chain is unchanged, extended by one ordering,
or (for `push` alone) has only its final ordering extended at the end. -/
def StepShape (s s' : TracingVec X) : Prop :=
  (∃ tail, s'.mem = s.mem ++ tail) ∧
  (s'.snapshots = s.snapshots ∨ (∃ x, s'.snapshots = s.snapshots ++ [x]) ∨
    s'.snapshots = s.snapshots.dropLast ++ [s.latest_snapshot ++ [s.mem.length]])

lemma stepShape_refl (s : TracingVec X) : StepShape s s :=
  ⟨⟨[], by simp⟩, Or.inl rfl⟩

lemma stepShape_snapExtends {s s' : TracingVec X} (h : StepShape s s') :
    SnapExtends s.snapshots s'.snapshots := by
  rcases h.2 with h2 | ⟨x, h2⟩ | h2
  · rw [h2]; exact snapExtends_refl _
  · rw [h2]; exact snapExtends_append _ _
  · rw [h2]; exact snapExtends_push_shape s.snapshots s.mem.length

namespace TracingVec

lemma set_latest_new_snapshot_snapshots (s : TracingVec X) (l : List Nat) :
    ((s.new_snapshot).set_latest l).snapshots = s.snapshots ++ [l] := by
  simp [List.dropLast_concat]

lemma push_mem (s : TracingVec X) (v : X) :
    (s.push v).mem = s.mem ++ [{ val := v, birth := s.pseudotime }] := rfl

lemma push_snapshots (s : TracingVec X) (v : X) :
    (s.push v).snapshots = s.snapshots.dropLast ++ [s.latest_snapshot ++ [s.mem.length]] := by
  simp [push, set_latest, latest_snapshot, last_obj_index]

lemma push_latest_snapshot (s : TracingVec X) (v : X) :
    (s.push v).latest_snapshot = s.latest_snapshot ++ [s.mem.length] := by
  unfold push
  rw [latest_snapshot_set_latest]
  simp [latest_snapshot, last_obj_index]

lemma push_stepShape (s : TracingVec X) (v : X) : StepShape s (s.push v) :=
  ⟨⟨_, push_mem s v⟩, Or.inr (Or.inr (push_snapshots s v))⟩

lemma pop_snapshots (s : TracingVec X) :
    (s.pop).2.snapshots = s.snapshots ++ [s.latest_snapshot] ∨
    (s.pop).2.snapshots = s.snapshots ++ [s.latest_snapshot.dropLast] := by
  unfold pop
  rcases e : (s.new_snapshot).latest_snapshot.getLast? with _ | p
  · simp only [e]
    exact Or.inl (by simp)
  · simp only [e]
    refine Or.inr ?_
    rw [set_latest_new_snapshot_snapshots, latest_snapshot_new_snapshot]

lemma pop_mem (s : TracingVec X) : (s.pop).2.mem = s.mem := by
  unfold pop
  rcases e : (s.new_snapshot).latest_snapshot.getLast? with _ | p <;> simp only [e] <;> rfl

lemma pop_stepShape (s : TracingVec X) : StepShape s (s.pop).2 := by
  refine ⟨⟨[], by simp [pop_mem]⟩, Or.inr (Or.inl ?_)⟩
  rcases pop_snapshots s with h | h
  · exact ⟨_, h⟩
  · exact ⟨_, h⟩

lemma try_insert_eq (s : TracingVec X) (abs : Nat) (v : X) :
    s.try_insert abs v =
      (.ok { pos := abs, pseudotime := s.pseudotime + 1 },
        { mem := s.mem ++ [{ val := v, birth := s.pseudotime + 1 }],
          snapshots := s.snapshots ++ [vec_insert abs s.mem.length s.latest_snapshot] }) := by
  unfold try_insert
  simp [new_snapshot, set_latest, latest_snapshot, last_obj_index, List.dropLast_concat]

lemma try_insert_stepShape (s : TracingVec X) (abs : Nat) (v : X) :
    StepShape s (s.try_insert abs v).2 := by
  rw [try_insert_eq]
  exact ⟨⟨_, rfl⟩, Or.inr (Or.inl ⟨_, rfl⟩)⟩

lemma try_insert_before_stepShape (s : TracingVec X) (i : TracingIndex) (v : X) :
    StepShape s (s.try_insert_before i v).2 := by
  unfold try_insert_before
  rcases e : s.latest_index i with e' | abs
  · exact stepShape_refl s
  · exact try_insert_stepShape s abs v

lemma try_insert_after_stepShape (s : TracingVec X) (i : TracingIndex) (v : X) :
    StepShape s (s.try_insert_after i v).2 := by
  unfold try_insert_after
  rcases e : s.latest_index i with e' | abs
  · exact stepShape_refl s
  · exact try_insert_stepShape s (abs + 1) v

lemma try_remove_state (s : TracingVec X) (i : TracingIndex) :
    ((∃ e, (s.try_remove i).1 = .error e) ∧ (s.try_remove i).2 = s) ∨
    ∃ abs, s.latest_index i = .ok abs ∧
      (s.try_remove i).1 = .ok { pos := s.latest_snapshot.getD abs 0 } ∧
      (s.try_remove i).2.mem = s.mem ∧
      (s.try_remove i).2.snapshots = s.snapshots ++ [s.latest_snapshot.eraseIdx abs] := by
  unfold try_remove
  rcases e : s.latest_index i with e' | abs
  · exact Or.inl ⟨⟨e', rfl⟩, rfl⟩
  · refine Or.inr ⟨abs, rfl, by simp only [latest_snapshot_new_snapshot], rfl, ?_⟩
    rw [set_latest_new_snapshot_snapshots, latest_snapshot_new_snapshot]

lemma try_remove_stepShape (s : TracingVec X) (i : TracingIndex) :
    StepShape s (s.try_remove i).2 := by
  rcases try_remove_state s i with ⟨_, h⟩ | ⟨abs, _, _, hm, hs⟩
  · rw [h]; exact stepShape_refl s
  · exact ⟨⟨[], by simp [hm]⟩, Or.inr (Or.inl ⟨_, hs⟩)⟩

lemma try_remove_all_state (s : TracingVec X) (indices : List TracingIndex) :
    ((∃ e, (s.try_remove_all indices).1 = .error e) ∧ (s.try_remove_all indices).2 = s) ∨
    ∃ ais, s.resolve_all indices = .ok ais ∧
      (s.try_remove_all indices).2.mem = s.mem ∧
      (s.try_remove_all indices).2.snapshots =
        s.snapshots ++
          [(remove_loop s.latest_snapshot (List.replicate ais.length none)
              (sort_by_abs ais).reverse).1] := by
  unfold try_remove_all
  by_cases he : indices.isEmpty
  · simp [he]
  · simp only [he, if_false]
    rcases e : s.resolve_all indices with e' | ais
    · exact Or.inl ⟨⟨e', rfl⟩, rfl⟩
    · refine Or.inr ⟨ais, rfl, rfl, ?_⟩
      simp [set_latest_new_snapshot_snapshots]

lemma try_remove_all_stepShape (s : TracingVec X) (indices : List TracingIndex) :
    StepShape s (s.try_remove_all indices).2 := by
  rcases try_remove_all_state s indices with ⟨_, h⟩ | ⟨ais, _, hm, hs⟩
  · rw [h]; exact stepShape_refl s
  · exact ⟨⟨[], by simp [hm]⟩, Or.inr (Or.inl ⟨_, hs⟩)⟩

lemma try_remove_all_ok_snapshots (s : TracingVec X) (indices : List TracingIndex)
    {i1 : List Nat} {rem : List TimelessIndex} {s1 : TracingVec X}
    (h : s.try_remove_all indices = (.ok (i1, rem), s1)) :
    s1.mem = s.mem ∧ ∃ y, s1.snapshots = s.snapshots ++ [y] := by
  rcases try_remove_all_state s indices with ⟨⟨e, he⟩, _⟩ | ⟨ais, _, hm, hs⟩
  · rw [h] at he; exact absurd he (by simp)
  · rw [h] at hm hs
    exact ⟨hm, _, hs⟩

lemma try_replace_stepShape (s : TracingVec X) (indices : List TracingIndex) (v : X) :
    StepShape s (s.try_replace indices v).2 := by
  unfold try_replace
  rcases e : s.try_remove_all indices with ⟨r, s1⟩
  rcases r with e' | ⟨i1, rem⟩
  · simp only
    have := try_remove_all_stepShape s indices
    rw [e] at this
    exact this
  · simp only
    obtain ⟨hm, y, hs⟩ := try_remove_all_ok_snapshots s indices e
    constructor
    · rw [← hm]
      exact ⟨_, rfl⟩
    · have hdl : s.snapshots = s1.snapshots.dropLast := by
        rw [hs, List.dropLast_concat]
      rw [hdl]
      exact Or.inr (Or.inl ⟨_, rfl⟩)

lemma try_replace_choose_stepShape [Inhabited X] (s : TracingVec X)
    (indices : List TracingIndex) (choose : List Nat → Nat) (f : List X → X) :
    StepShape s (s.try_replace_choose indices choose f).2 := by
  unfold try_replace_choose
  rcases e : s.try_remove_all indices with ⟨r, s1⟩
  rcases r with e' | ⟨i1, rem⟩
  · simp only
    have := try_remove_all_stepShape s indices
    rw [e] at this
    exact this
  · simp only
    obtain ⟨hm, y, hs⟩ := try_remove_all_ok_snapshots s indices e
    constructor
    · rw [← hm]
      exact ⟨_, rfl⟩
    · have hdl : s.snapshots = s1.snapshots.dropLast := by
        rw [hs, List.dropLast_concat]
      rw [hdl]
      exact Or.inr (Or.inl ⟨_, rfl⟩)

lemma applyMutation_stepShape [Inhabited X] (s : TracingVec X) (m : Mutation X) :
    StepShape s (s.applyMutation m) := by
  cases m with
  | push v => exact push_stepShape s v
  | pop => exact pop_stepShape s
  | insert_before i v => exact try_insert_before_stepShape s i v
  | insert_after i v => exact try_insert_after_stepShape s i v
  | remove i => exact try_remove_stepShape s i
  | replace l v => exact try_replace_stepShape s l v
  | replace_with l f => exact try_replace_choose_stepShape s l _ f
  | replace_at_last_with l f => exact try_replace_choose_stepShape s l _ f

lemma applyMutation_val_location [Inhabited X] (s : TracingVec X) (m : Mutation X)
    {idx : TimedIndex} {a : Nat} (h : s.val_location idx = .ok a) :
    (s.applyMutation m).val_location idx = .ok a :=
  val_location_mono (stepShape_snapExtends (applyMutation_stepShape s m)) h

lemma applyMutation_mem_append [Inhabited X] (s : TracingVec X) (m : Mutation X) :
    ∃ tail, (s.applyMutation m).mem = s.mem ++ tail :=
  (applyMutation_stepShape s m).1

lemma applyMutations_val_location [Inhabited X] (s : TracingVec X) (ms : List (Mutation X))
    {idx : TimedIndex} {a : Nat} (h : s.val_location idx = .ok a) :
    (s.applyMutations ms).val_location idx = .ok a := by
  induction ms generalizing s with
  | nil => exact h
  | cons m ms ih => exact ih _ (applyMutation_val_location s m h)

lemma applyMutations_mem_append [Inhabited X] (s : TracingVec X) (ms : List (Mutation X)) :
    ∃ tail, (s.applyMutations ms).mem = s.mem ++ tail := by
  induction ms generalizing s with
  | nil => exact ⟨[], by simp [applyMutations]⟩
  | cons m ms ih =>
    obtain ⟨t1, h1⟩ := applyMutation_mem_append s m
    obtain ⟨t2, h2⟩ := ih (s.applyMutation m)
    exact ⟨t1 ++ t2, by rw [applyMutations, h2, h1, List.append_assoc]⟩

end TracingVec

lemma find_position_lt_length {pos : Nat} : ∀ {l : List Nat}, pos ∈ l →
    find_position pos l < l.length
  | r :: rest, h => by
    unfold find_position
    by_cases hr : r = pos
    · simp [hr]
    · rcases List.mem_cons.mp h with h' | h'
      · exact absurd h'.symm hr
      · simpa [hr] using find_position_lt_length h'

lemma getElem?_find_position {pos : Nat} : ∀ {l : List Nat}, pos ∈ l →
    l[find_position pos l]? = some pos
  | r :: rest, h => by
    unfold find_position
    by_cases hr : r = pos
    · simp [hr]
    · rcases List.mem_cons.mp h with h' | h'
      · exact absurd h'.symm hr
      · simpa [hr] using getElem?_find_position h'

lemma getElem?_vec_insert_self {α : Type} (a : α) :
    ∀ (n : Nat) (l : List α), n ≤ l.length → (vec_insert n a l)[n]? = some a
  | 0, l, _ => by simp [vec_insert]
  | n + 1, [], h => by simp at h
  | n + 1, b :: l, h => by
    have := getElem?_vec_insert_self a n l (by simpa using h)
    simpa [vec_insert] using this

lemma mem_vec_insert {α : Type} {x a : α} :
    ∀ {n : Nat} {l : List α}, x ∈ vec_insert n a l → x = a ∨ x ∈ l
  | 0, l, h => by simpa [vec_insert] using h
  | n + 1, [], h => by simpa [vec_insert] using h
  | n + 1, b :: l, h => by
    simp only [vec_insert, List.mem_cons] at h
    rcases h with h | h
    · exact Or.inr (List.mem_cons.mpr (Or.inl h))
    · rcases mem_vec_insert h with h' | h'
      · exact Or.inl h'
      · exact Or.inr (List.mem_cons.mpr (Or.inr h'))

namespace TracingVec

lemma into_timeless_timeless (s : TracingVec X) (idx : TimelessIndex) :
    s.into_timeless (.Timeless idx) =
      if s.mem.length > idx.pos then .ok idx else .error (.DataDoesNotExist idx) := by
  simp only [into_timeless]

lemma into_timeless_timed (s : TracingVec X) (idx : TimedIndex) :
    s.into_timeless (.Timed idx) =
      match s.val_location idx with
      | .error e => .error e
      | .ok pos => .ok { pos := pos } := by
  simp only [into_timeless]

lemma is_alive_timeless_iff (s : TracingVec X) (idx : TimelessIndex) :
    s.is_alive (.Timeless idx) = true ↔
      idx.pos < s.mem.length ∧ idx.pos ∈ s.latest_snapshot := by
  unfold is_alive
  rw [into_timeless_timeless]
  by_cases h : s.mem.length > idx.pos
  · rw [if_pos h]
    simp only [decide_eq_true_eq]
    exact ⟨fun hm => ⟨h, hm⟩, fun hc => hc.2⟩
  · rw [if_neg h]
    simp only [Bool.false_eq_true, false_iff, not_and]
    intro hlt
    exact absurd hlt h

lemma latest_index_ok {s : TracingVec X} {i : TracingIndex} {abs : Nat}
    (h : s.latest_index i = .ok abs) :
    ∃ idx, s.into_timeless i = .ok idx ∧ idx.pos < s.mem.length ∧
      idx.pos ∈ s.latest_snapshot ∧ abs = find_position idx.pos s.latest_snapshot := by
  unfold latest_index at h
  split at h
  · exact absurd h (by simp)
  · rename_i idx e
    split at h
    · rename_i ha
      simp only [Except.ok.injEq] at h
      obtain ⟨hlt, hmem⟩ := (is_alive_timeless_iff s idx).mp ha
      exact ⟨idx, e, hlt, hmem, h.symm⟩
    · exact absurd h (by simp)

lemma latest_index_ok_of {s : TracingVec X} {i : TracingIndex} {idx : TimelessIndex}
    (e : s.into_timeless i = .ok idx) (hlt : idx.pos < s.mem.length)
    (hmem : idx.pos ∈ s.latest_snapshot) :
    s.latest_index i = .ok (find_position idx.pos s.latest_snapshot) := by
  unfold latest_index
  simp only [e]
  rw [if_pos ((is_alive_timeless_iff s idx).mpr ⟨hlt, hmem⟩)]
  rfl

lemma latest_index_ok_lt {s : TracingVec X} {i : TracingIndex} {abs : Nat}
    (h : s.latest_index i = .ok abs) :
    abs < s.latest_snapshot.length ∧ ∃ p, s.latest_snapshot[abs]? = some p := by
  obtain ⟨idx, _, _, hmem, habs⟩ := latest_index_ok h
  subst habs
  exact ⟨find_position_lt_length hmem, idx.pos, getElem?_find_position hmem⟩

lemma get_timed_of_val_location [Inhabited X] {s : TracingVec X} {idx : TimedIndex} {a : Nat}
    (h : s.val_location idx = .ok a) :
    s.get (.Timed idx) = .ok (s.mem.getD a default).val := by
  unfold get
  rw [into_timeless_timed, h]

lemma try_insert_before_ok {s : TracingVec X} {i : TracingIndex} {v : X}
    {ti : TimedIndex} {s' : TracingVec X}
    (h : s.try_insert_before i v = (.ok ti, s')) :
    ∃ abs, s.latest_index i = .ok abs ∧ s.try_insert abs v = (.ok ti, s') := by
  unfold try_insert_before at h
  split at h
  · exact absurd (congrArg Prod.fst h) (by simp)
  · rename_i abs e
    exact ⟨abs, e, h⟩

lemma try_insert_after_ok {s : TracingVec X} {i : TracingIndex} {v : X}
    {ti : TimedIndex} {s' : TracingVec X}
    (h : s.try_insert_after i v = (.ok ti, s')) :
    ∃ abs, s.latest_index i = .ok abs ∧ s.try_insert (abs + 1) v = (.ok ti, s') := by
  unfold try_insert_after at h
  split at h
  · exact absurd (congrArg Prod.fst h) (by simp)
  · rename_i abs e
    exact ⟨abs, e, h⟩

lemma pseudotime_succ {s : TracingVec X} (hne : s.snapshots ≠ []) :
    s.pseudotime + 1 = s.snapshots.length := by
  unfold pseudotime
  have : s.snapshots.length ≠ 0 := fun h0 => hne (List.length_eq_zero.mp h0)
  omega

lemma try_insert_issued {s : TracingVec X} {abs : Nat} {v : X} {ti : TimedIndex}
    {s' : TracingVec X} (hne : s.snapshots ≠ [])
    (habs : abs ≤ s.latest_snapshot.length)
    (h : s.try_insert abs v = (.ok ti, s')) :
    ti = { pos := abs, pseudotime := s.pseudotime + 1 } ∧
    s'.val_location ti = .ok s.mem.length ∧
    s'.mem = s.mem ++ [{ val := v, birth := s.pseudotime + 1 }] := by
  rw [try_insert_eq] at h
  have h1 := congrArg Prod.fst h
  have h2 := congrArg Prod.snd h
  simp only [Except.ok.injEq] at h1
  simp only at h2
  obtain rfl : ti = { pos := abs, pseudotime := s.pseudotime + 1 } := h1.symm
  subst h2
  refine ⟨rfl, ?_, rfl⟩
  rw [val_location_ok_iff]
  refine ⟨vec_insert abs s.mem.length s.latest_snapshot, ?_, ?_⟩
  · show (s.snapshots ++ _)[s.pseudotime + 1]? = _
    rw [pseudotime_succ hne, List.getElem?_concat_length]
  · exact getElem?_vec_insert_self _ abs _ habs

end TracingVec

end Helpers

open TracingVec in
/-- C1: for every sequence of mutations, a version-stable coordinate keeps
resolving (via val_location / into_timeless) to the value that was live at
that position in its own version, no matter how many later mutations occur;
and the coordinate issued by an inserting mutation (try_insert_before /
try_insert_after, through try_insert) resolves to the value inserted by that
mutation after arbitrarily many later mutations. -/
theorem C1_version_stable_coordinate_resolution :
    (∀ (s : TracingVec Nat) (idx : TimedIndex) (a : Nat) (ms : List (Mutation Nat)),
        s.val_location idx = .ok a → a < s.mem.length →
        (s.applyMutations ms).val_location idx = .ok a ∧
        (s.applyMutations ms).get (.Timed idx) = s.get (.Timed idx)) ∧
    (∀ (s : TracingVec Nat) (i : TracingIndex) (v : Nat) (ti : TimedIndex)
        (s' : TracingVec Nat) (ms : List (Mutation Nat)),
        s.snapshots ≠ [] → s.try_insert_before i v = (.ok ti, s') →
        (s'.applyMutations ms).get (.Timed ti) = .ok v) ∧
    (∀ (s : TracingVec Nat) (i : TracingIndex) (v : Nat) (ti : TimedIndex)
        (s' : TracingVec Nat) (ms : List (Mutation Nat)),
        s.snapshots ≠ [] → s.try_insert_after i v = (.ok ti, s') →
        (s'.applyMutations ms).get (.Timed ti) = .ok v) := by
  refine ⟨?_, ?_, ?_⟩
  · intro s idx a ms hv ha
    have hv' := applyMutations_val_location s ms hv
    refine ⟨hv', ?_⟩
    rw [get_timed_of_val_location hv', get_timed_of_val_location hv]
    obtain ⟨tail, ht⟩ := applyMutations_mem_append s ms
    rw [ht, List.getD_eq_getElem?_getD, getElem?_append_lt _ _ ha,
      ← List.getD_eq_getElem?_getD]
  · intro s i v ti s' ms hne h
    obtain ⟨abs, he, hins⟩ := try_insert_before_ok h
    have habs : abs ≤ s.latest_snapshot.length := le_of_lt (latest_index_ok_lt he).1
    obtain ⟨hti, hval, hmem⟩ := try_insert_issued hne habs hins
    have hval' := applyMutations_val_location s' ms hval
    rw [get_timed_of_val_location hval']
    obtain ⟨tail, ht⟩ := applyMutations_mem_append s' ms
    rw [ht, hmem, List.getD_eq_getElem?_getD, List.append_assoc, List.getElem?_append]
    simp
  · intro s i v ti s' ms hne h
    obtain ⟨abs, he, hins⟩ := try_insert_after_ok h
    have habs : abs + 1 ≤ s.latest_snapshot.length := (latest_index_ok_lt he).1
    obtain ⟨hti, hval, hmem⟩ := try_insert_issued hne habs hins
    have hval' := applyMutations_val_location s' ms hval
    rw [get_timed_of_val_location hval']
    obtain ⟨tail, ht⟩ := applyMutations_mem_append s' ms
    rw [ht, hmem, List.getD_eq_getElem?_getD, List.append_assoc, List.getElem?_append]
    simp

/-- Witness for C1 at concrete inputs. -/
theorem C1_witness :
    (((TracingVec.fromList [5, 6] : TracingVec Nat).applyMutations [.pop]).val_location
        { pos := 1, pseudotime := 0 } = .ok 1 ∧
      ((TracingVec.fromList [5, 6] : TracingVec Nat).applyMutations [.pop]).get
        (.Timed { pos := 1, pseudotime := 0 }) =
        (TracingVec.fromList [5, 6] : TracingVec Nat).get
          (.Timed { pos := 1, pseudotime := 0 })) ∧
    ((TracingVec.mk [⟨5, 0⟩, ⟨6, 0⟩, ⟨7, 1⟩] [[0, 1], [2, 0, 1]]).applyMutations
        [.remove (.Timeless ⟨2⟩), .push 9]).get
      (.Timed { pos := 0, pseudotime := 1 }) = .ok 7 ∧
    ((TracingVec.mk [⟨5, 0⟩, ⟨6, 0⟩, ⟨7, 1⟩] [[0, 1], [0, 2, 1]]).applyMutations
        [.pop, .push 9]).get
      (.Timed { pos := 1, pseudotime := 1 }) = .ok 7 :=
  ⟨C1_version_stable_coordinate_resolution.1 (TracingVec.fromList [5, 6])
      { pos := 1, pseudotime := 0 } 1 [.pop] rfl (by decide),
    C1_version_stable_coordinate_resolution.2.1 (TracingVec.fromList [5, 6])
      (.Timeless ⟨0⟩) 7 { pos := 0, pseudotime := 1 }
      (TracingVec.mk [⟨5, 0⟩, ⟨6, 0⟩, ⟨7, 1⟩] [[0, 1], [2, 0, 1]])
      [.remove (.Timeless ⟨2⟩), .push 9] (by decide) rfl,
    C1_version_stable_coordinate_resolution.2.2 (TracingVec.fromList [5, 6])
      (.Timeless ⟨0⟩) 7 { pos := 1, pseudotime := 1 }
      (TracingVec.mk [⟨5, 0⟩, ⟨6, 0⟩, ⟨7, 1⟩] [[0, 1], [0, 2, 1]])
      [.pop, .push 9] (by decide) rfl⟩

namespace TracingVec

variable {X : Type}

lemma pseudotime_of_concat {s s' : TracingVec X} {x : List Nat} (hne : s.snapshots ≠ [])
    (h : s'.snapshots = s.snapshots ++ [x]) : s'.pseudotime = s.pseudotime + 1 := by
  unfold pseudotime
  rw [h]
  have : s.snapshots.length ≠ 0 := fun h0 => hne (List.length_eq_zero.mp h0)
  simp
  omega

lemma try_insert_snd_snapshots {s : TracingVec X} {abs : Nat} {v : X} {ti : TimedIndex}
    {s' : TracingVec X} (h : s.try_insert abs v = (.ok ti, s')) :
    s'.snapshots = s.snapshots ++ [vec_insert abs s.mem.length s.latest_snapshot] := by
  rw [try_insert_eq] at h
  have h2 := congrArg Prod.snd h
  simp only at h2
  rw [← h2]

lemma try_remove_ok_snapshots {s : TracingVec X} {i : TracingIndex} {r : TimelessIndex}
    {s' : TracingVec X} (h : s.try_remove i = (.ok r, s')) :
    ∃ x, s'.snapshots = s.snapshots ++ [x] := by
  rcases try_remove_state s i with ⟨⟨e, he⟩, _⟩ | ⟨abs, _, _, _, hs⟩
  · rw [h] at he; exact absurd he (by simp)
  · rw [h] at hs; exact ⟨_, hs⟩

lemma try_replace_ok_state {s : TracingVec X} {indices : List TracingIndex} {v : X}
    {removed : List TimelessIndex} {s' : TracingVec X}
    (h : s.try_replace indices v = (.ok removed, s')) :
    ∃ x, s'.snapshots = s.snapshots ++ [x] := by
  unfold try_replace at h
  rcases e : s.try_remove_all indices with ⟨r, s1⟩
  rw [e] at h
  rcases r with e' | ⟨i1, rem⟩
  · exact absurd (congrArg Prod.fst h) (by simp)
  · have h2 := congrArg Prod.snd h
    simp only at h2
    obtain ⟨hm, y, hs⟩ := try_remove_all_ok_snapshots s indices e
    have hdl : s.snapshots = s1.snapshots.dropLast := by
      rw [hs, List.dropLast_concat]
    rw [hdl, ← h2]
    exact ⟨_, rfl⟩

lemma try_replace_choose_ok_state [Inhabited X] {s : TracingVec X}
    {indices : List TracingIndex} {choose : List Nat → Nat} {f : List X → X}
    {ti : TimedIndex} {s' : TracingVec X}
    (h : s.try_replace_choose indices choose f = (.ok ti, s')) :
    ∃ x, s'.snapshots = s.snapshots ++ [x] := by
  unfold try_replace_choose at h
  rcases e : s.try_remove_all indices with ⟨r, s1⟩
  rw [e] at h
  rcases r with e' | ⟨i1, rem⟩
  · exact absurd (congrArg Prod.fst h) (by simp)
  · have h2 := congrArg Prod.snd h
    simp only at h2
    obtain ⟨hm, y, hs⟩ := try_remove_all_ok_snapshots s indices e
    have hdl : s.snapshots = s1.snapshots.dropLast := by
      rw [hs, List.dropLast_concat]
    rw [hdl, ← h2]
    exact ⟨_, rfl⟩

lemma pop_snd_snapshots (s : TracingVec X) : ∃ x, (s.pop).2.snapshots = s.snapshots ++ [x] := by
  rcases pop_snapshots s with h | h
  · exact ⟨_, h⟩
  · exact ⟨_, h⟩

end TracingVec

open TracingVec in
/-- C2: push appends to the latest ordering in place and never advances
pseudotime (the version chain keeps its length, and all earlier versions are
untouched), while pop, insert_before, insert_after, remove, replace,
replace_with and replace_at_last_with (on success) append exactly one new
version to the chain and advance pseudotime by exactly one. -/
theorem C2_push_in_place_others_new_version :
    (∀ (s : TracingVec Nat) (v : Nat), s.snapshots ≠ [] →
        (s.push v).pseudotime = s.pseudotime ∧
        (s.push v).snapshots.length = s.snapshots.length ∧
        (s.push v).snapshots.dropLast = s.snapshots.dropLast ∧
        (s.push v).latest_snapshot = s.latest_snapshot ++ [s.mem.length]) ∧
    (∀ (s : TracingVec Nat), s.snapshots ≠ [] →
        (s.pop).2.pseudotime = s.pseudotime + 1 ∧
        ∃ x, (s.pop).2.snapshots = s.snapshots ++ [x]) ∧
    (∀ (s : TracingVec Nat) (i : TracingIndex) (v : Nat) (ti : TimedIndex)
        (s' : TracingVec Nat), s.snapshots ≠ [] →
        s.try_insert_before i v = (.ok ti, s') →
        s'.pseudotime = s.pseudotime + 1 ∧ ∃ x, s'.snapshots = s.snapshots ++ [x]) ∧
    (∀ (s : TracingVec Nat) (i : TracingIndex) (v : Nat) (ti : TimedIndex)
        (s' : TracingVec Nat), s.snapshots ≠ [] →
        s.try_insert_after i v = (.ok ti, s') →
        s'.pseudotime = s.pseudotime + 1 ∧ ∃ x, s'.snapshots = s.snapshots ++ [x]) ∧
    (∀ (s : TracingVec Nat) (i : TracingIndex) (r : TimelessIndex)
        (s' : TracingVec Nat), s.snapshots ≠ [] →
        s.try_remove i = (.ok r, s') →
        s'.pseudotime = s.pseudotime + 1 ∧ ∃ x, s'.snapshots = s.snapshots ++ [x]) ∧
    (∀ (s : TracingVec Nat) (l : List TracingIndex) (v : Nat)
        (removed : List TimelessIndex) (s' : TracingVec Nat), s.snapshots ≠ [] →
        s.try_replace l v = (.ok removed, s') →
        s'.pseudotime = s.pseudotime + 1 ∧ ∃ x, s'.snapshots = s.snapshots ++ [x]) ∧
    (∀ (s : TracingVec Nat) (l : List TracingIndex) (f : List Nat → Nat)
        (ti : TimedIndex) (s' : TracingVec Nat), s.snapshots ≠ [] →
        s.try_replace_with l f = (.ok ti, s') →
        s'.pseudotime = s.pseudotime + 1 ∧ ∃ x, s'.snapshots = s.snapshots ++ [x]) ∧
    (∀ (s : TracingVec Nat) (l : List TracingIndex) (f : List Nat → Nat)
        (ti : TimedIndex) (s' : TracingVec Nat), s.snapshots ≠ [] →
        s.try_replace_at_last_with l f = (.ok ti, s') →
        s'.pseudotime = s.pseudotime + 1 ∧ ∃ x, s'.snapshots = s.snapshots ++ [x]) := by
  refine ⟨?_, ?_, ?_, ?_, ?_, ?_, ?_, ?_⟩
  · intro s v hne
    have hs := push_snapshots s v
    have hlen : s.snapshots.length ≠ 0 := fun h0 => hne (List.length_eq_zero.mp h0)
    refine ⟨?_, ?_, ?_, push_latest_snapshot s v⟩
    · unfold pseudotime
      rw [hs]
      simp only [List.length_append, List.length_dropLast, List.length_cons,
        List.length_nil]
      omega
    · rw [hs]
      simp only [List.length_append, List.length_dropLast, List.length_cons,
        List.length_nil]
      omega
    · rw [hs, List.dropLast_concat]
  · intro s hne
    obtain ⟨x, hx⟩ := pop_snd_snapshots s
    exact ⟨pseudotime_of_concat hne hx, x, hx⟩
  · intro s i v ti s' hne h
    obtain ⟨abs, _, hins⟩ := try_insert_before_ok h
    have hx := try_insert_snd_snapshots hins
    exact ⟨pseudotime_of_concat hne hx, _, hx⟩
  · intro s i v ti s' hne h
    obtain ⟨abs, _, hins⟩ := try_insert_after_ok h
    have hx := try_insert_snd_snapshots hins
    exact ⟨pseudotime_of_concat hne hx, _, hx⟩
  · intro s i r s' hne h
    obtain ⟨x, hx⟩ := try_remove_ok_snapshots h
    exact ⟨pseudotime_of_concat hne hx, x, hx⟩
  · intro s l v removed s' hne h
    obtain ⟨x, hx⟩ := try_replace_ok_state h
    exact ⟨pseudotime_of_concat hne hx, x, hx⟩
  · intro s l f ti s' hne h
    obtain ⟨x, hx⟩ := try_replace_choose_ok_state h
    exact ⟨pseudotime_of_concat hne hx, x, hx⟩
  · intro s l f ti s' hne h
    obtain ⟨x, hx⟩ := try_replace_choose_ok_state h
    exact ⟨pseudotime_of_concat hne hx, x, hx⟩


/-- Witness for C2 at concrete inputs. -/
theorem C2_witness :
    ((TracingVec.fromList [5, 6] : TracingVec Nat).push 9).pseudotime =
        (TracingVec.fromList [5, 6] : TracingVec Nat).pseudotime ∧
    ((TracingVec.fromList [5, 6] : TracingVec Nat).pop).2.pseudotime =
        (TracingVec.fromList [5, 6] : TracingVec Nat).pseudotime + 1 ∧
    (TracingVec.mk [⟨5, 0⟩, ⟨6, 0⟩, ⟨7, 1⟩] [[0, 1], [2, 0, 1]] : TracingVec Nat).pseudotime =
        (TracingVec.fromList [5, 6] : TracingVec Nat).pseudotime + 1 ∧
    (TracingVec.mk [⟨5, 0⟩, ⟨6, 0⟩, ⟨7, 1⟩] [[0, 1], [0, 2, 1]] : TracingVec Nat).pseudotime =
        (TracingVec.fromList [5, 6] : TracingVec Nat).pseudotime + 1 ∧
    (TracingVec.mk [⟨5, 0⟩, ⟨6, 0⟩] [[0, 1], [1]] : TracingVec Nat).pseudotime =
        (TracingVec.fromList [5, 6] : TracingVec Nat).pseudotime + 1 ∧
    (TracingVec.mk [⟨5, 0⟩, ⟨6, 0⟩, ⟨9, 1⟩] [[0, 1], [2, 1]] : TracingVec Nat).pseudotime =
        (TracingVec.fromList [5, 6] : TracingVec Nat).pseudotime + 1 ∧
    (TracingVec.mk [⟨5, 0⟩, ⟨6, 0⟩, ⟨5, 1⟩] [[0, 1], [2, 1]] : TracingVec Nat).pseudotime =
        (TracingVec.fromList [5, 6] : TracingVec Nat).pseudotime + 1 ∧
    (TracingVec.mk [⟨5, 0⟩, ⟨6, 0⟩, ⟨5, 1⟩] [[0, 1], [2, 1]] : TracingVec Nat).pseudotime =
        (TracingVec.fromList [5, 6] : TracingVec Nat).pseudotime + 1 :=
  ⟨(C2_push_in_place_others_new_version.1 (TracingVec.fromList [5, 6]) 9 (by decide)).1,
    (C2_push_in_place_others_new_version.2.1 (TracingVec.fromList [5, 6]) (by decide)).1,
    (C2_push_in_place_others_new_version.2.2.1 (TracingVec.fromList [5, 6]) (.Timeless ⟨0⟩) 7
      { pos := 0, pseudotime := 1 } (TracingVec.mk [⟨5, 0⟩, ⟨6, 0⟩, ⟨7, 1⟩] [[0, 1], [2, 0, 1]])
      (by decide) rfl).1,
    (C2_push_in_place_others_new_version.2.2.2.1 (TracingVec.fromList [5, 6]) (.Timeless ⟨0⟩) 7
      { pos := 1, pseudotime := 1 } (TracingVec.mk [⟨5, 0⟩, ⟨6, 0⟩, ⟨7, 1⟩] [[0, 1], [0, 2, 1]])
      (by decide) rfl).1,
    (C2_push_in_place_others_new_version.2.2.2.2.1 (TracingVec.fromList [5, 6]) (.Timeless ⟨0⟩)
      ⟨0⟩ (TracingVec.mk [⟨5, 0⟩, ⟨6, 0⟩] [[0, 1], [1]]) (by decide) rfl).1,
    (C2_push_in_place_others_new_version.2.2.2.2.2.1 (TracingVec.fromList [5, 6])
      [.Timeless ⟨0⟩] 9 [⟨0⟩] (TracingVec.mk [⟨5, 0⟩, ⟨6, 0⟩, ⟨9, 1⟩] [[0, 1], [2, 1]])
      (by decide) rfl).1,
    (C2_push_in_place_others_new_version.2.2.2.2.2.2.1 (TracingVec.fromList [5, 6])
      [.Timeless ⟨0⟩] (fun l => l.sum) { pos := 0, pseudotime := 1 }
      (TracingVec.mk [⟨5, 0⟩, ⟨6, 0⟩, ⟨5, 1⟩] [[0, 1], [2, 1]]) (by decide) rfl).1,
    (C2_push_in_place_others_new_version.2.2.2.2.2.2.2 (TracingVec.fromList [5, 6])
      [.Timeless ⟨0⟩] (fun l => l.sum) { pos := 0, pseudotime := 1 }
      (TracingVec.mk [⟨5, 0⟩, ⟨6, 0⟩, ⟨5, 1⟩] [[0, 1], [2, 1]]) (by decide) rfl).1⟩

namespace TracingVec

variable {X : Type}

lemma remove_loop_fst_subset :
    ∀ (L : List (Nat × Nat)) (snap : List Nat) (removed : List (Option TimelessIndex)),
      (remove_loop snap removed L).1 ⊆ snap
  | [], snap, removed => fun _ h => h
  | (position, index) :: rest, snap, removed => by
    intro x hx
    have := remove_loop_fst_subset rest (snap.eraseIdx index)
      (removed.set position (some { pos := snap.getD index 0 })) hx
    exact (List.eraseIdx_sublist snap index).subset this

lemma try_remove_all_snd_latest_subset (s : TracingVec X) (indices : List TracingIndex) :
    (s.try_remove_all indices).2.latest_snapshot ⊆ s.latest_snapshot := by
  rcases try_remove_all_state s indices with ⟨_, h⟩ | ⟨ais, _, _, hs⟩
  · rw [h]
    exact fun x hx => hx
  · intro x hx
    rw [latest_snapshot, hs, getLastD_concat_nat] at hx
    exact remove_loop_fst_subset _ _ _ hx

lemma try_remove_all_snd_mem (s : TracingVec X) (indices : List TracingIndex) :
    (s.try_remove_all indices).2.mem = s.mem := by
  rcases try_remove_all_state s indices with ⟨_, h⟩ | ⟨ais, _, hm, _⟩
  · rw [h]
  · exact hm

lemma pop_latest_snapshot (s : TracingVec X) :
    (s.pop).2.latest_snapshot = s.latest_snapshot ∨
    (s.pop).2.latest_snapshot = s.latest_snapshot.dropLast := by
  unfold pop
  rcases e : (s.new_snapshot).latest_snapshot.getLast? with _ | p
  · simp only [e]
    exact Or.inl (by simp)
  · simp only [e]
    exact Or.inr (by simp)

lemma try_insert_snd_latest (s : TracingVec X) (abs : Nat) (v : X) :
    (s.try_insert abs v).2.latest_snapshot = vec_insert abs s.mem.length s.latest_snapshot := by
  rw [try_insert_eq]
  simp [latest_snapshot, getLastD_concat_nat]

lemma applyMutation_dead [Inhabited X] (s : TracingVec X) (m : Mutation X) {pos : Nat}
    (hlt : pos < s.mem.length) (hdead : pos ∉ s.latest_snapshot) :
    pos < (s.applyMutation m).mem.length ∧ pos ∉ (s.applyMutation m).latest_snapshot := by
  have hmem : pos < (s.applyMutation m).mem.length := by
    obtain ⟨tail, ht⟩ := applyMutation_mem_append s m
    rw [ht, List.length_append]
    omega
  refine ⟨hmem, ?_⟩
  cases m with
  | push v =>
    show pos ∉ (s.push v).latest_snapshot
    rw [push_latest_snapshot]
    intro hx
    rcases List.mem_append.mp hx with hx | hx
    · exact hdead hx
    · simp at hx
      omega
  | pop =>
    show pos ∉ (s.pop).2.latest_snapshot
    rcases pop_latest_snapshot s with h | h <;> rw [h]
    · exact hdead
    · exact fun hx => hdead ((List.dropLast_sublist _).subset hx)
  | insert_before i v =>
    show pos ∉ (s.try_insert_before i v).2.latest_snapshot
    unfold try_insert_before
    rcases e : s.latest_index i with e' | abs
    · exact hdead
    · rw [try_insert_snd_latest]
      intro hx
      rcases mem_vec_insert hx with hx | hx
      · omega
      · exact hdead hx
  | insert_after i v =>
    show pos ∉ (s.try_insert_after i v).2.latest_snapshot
    unfold try_insert_after
    rcases e : s.latest_index i with e' | abs
    · exact hdead
    · rw [try_insert_snd_latest]
      intro hx
      rcases mem_vec_insert hx with hx | hx
      · omega
      · exact hdead hx
  | remove i =>
    show pos ∉ (s.try_remove i).2.latest_snapshot
    rcases try_remove_state s i with ⟨_, h⟩ | ⟨abs, _, _, _, hs⟩
    · rw [h]; exact hdead
    · rw [latest_snapshot, hs, getLastD_concat_nat]
      exact fun hx => hdead ((List.eraseIdx_sublist _ _).subset hx)
  | replace l v =>
    show pos ∉ (s.try_replace l v).2.latest_snapshot
    unfold try_replace
    rcases e : s.try_remove_all l with ⟨r, s1⟩
    have hsub := try_remove_all_snd_latest_subset s l
    have hm1 := try_remove_all_snd_mem s l
    rw [e] at hsub hm1
    rcases r with e' | ⟨i1, rem⟩
    · exact fun hx => hdead (hsub hx)
    · simp only [latest_snapshot_set_latest]
      intro hx
      rcases mem_vec_insert hx with hx | hx
      · have hm2 : s1.mem.length = s.mem.length := by
          have h' : s1.mem = s.mem := hm1
          rw [h']
        simp only [last_obj_index, set_latest_mem, List.length_append, List.length_cons,
          List.length_nil] at hx
        omega
      · exact hdead (hsub hx)
  | replace_with l f =>
    show pos ∉ (s.try_replace_choose l (fun l => l.headD 0) f).2.latest_snapshot
    unfold try_replace_choose
    rcases e : s.try_remove_all l with ⟨r, s1⟩
    have hsub := try_remove_all_snd_latest_subset s l
    have hm1 := try_remove_all_snd_mem s l
    rw [e] at hsub hm1
    rcases r with e' | ⟨i1, rem⟩
    · exact fun hx => hdead (hsub hx)
    · simp only [latest_snapshot_set_latest]
      intro hx
      rcases mem_vec_insert hx with hx | hx
      · have hm2 : s1.mem.length = s.mem.length := by
          have h' : s1.mem = s.mem := hm1
          rw [h']
        simp only [last_obj_index, set_latest_mem, List.length_append, List.length_cons,
          List.length_nil] at hx
        omega
      · exact hdead (hsub hx)
  | replace_at_last_with l f =>
    show pos ∉ (s.try_replace_choose l (fun l => l.getLastD 0) f).2.latest_snapshot
    unfold try_replace_choose
    rcases e : s.try_remove_all l with ⟨r, s1⟩
    have hsub := try_remove_all_snd_latest_subset s l
    have hm1 := try_remove_all_snd_mem s l
    rw [e] at hsub hm1
    rcases r with e' | ⟨i1, rem⟩
    · exact fun hx => hdead (hsub hx)
    · simp only [latest_snapshot_set_latest]
      intro hx
      rcases mem_vec_insert hx with hx | hx
      · have hm2 : s1.mem.length = s.mem.length := by
          have h' : s1.mem = s.mem := hm1
          rw [h']
        simp only [last_obj_index, set_latest_mem, List.length_append, List.length_cons,
          List.length_nil] at hx
        omega
      · exact hdead (hsub hx)

lemma applyMutations_dead [Inhabited X] (s : TracingVec X) (ms : List (Mutation X)) {pos : Nat}
    (hlt : pos < s.mem.length) (hdead : pos ∉ s.latest_snapshot) :
    pos < (s.applyMutations ms).mem.length ∧ pos ∉ (s.applyMutations ms).latest_snapshot := by
  induction ms generalizing s with
  | nil => exact ⟨hlt, hdead⟩
  | cons m ms ih =>
    obtain ⟨h1, h2⟩ := applyMutation_dead s m hlt hdead
    exact ih (s.applyMutation m) h1 h2

end TracingVec

open TracingVec in
/-- C3: is_alive is true exactly when normalization to a content-stable
identifier succeeds and that arena position occurs in the latest ordering; a
coordinate that fails normalization yields false rather than an error; and
once an arena position of an existing entry is out of the latest ordering,
is_alive of its content-stable identifier is false and stays false after
every further sequence of mutations. -/
theorem C3_is_alive_characterization :
    (∀ (s : TracingVec Nat) (i : TracingIndex),
        s.is_alive i = true ↔
          ∃ idx, s.into_timeless i = .ok idx ∧ idx.pos ∈ s.latest_snapshot) ∧
    (∀ (s : TracingVec Nat) (i : TracingIndex) (e : IndexError),
        s.into_timeless i = .error e → s.is_alive i = false) ∧
    (∀ (s : TracingVec Nat) (pos : Nat) (ms : List (Mutation Nat)),
        pos < s.mem.length → pos ∉ s.latest_snapshot →
        (s.applyMutations ms).is_alive (.Timeless ⟨pos⟩) = false) := by
  refine ⟨?_, ?_, ?_⟩
  · intro s i
    unfold is_alive
    rcases e : s.into_timeless i with e' | idx
    · simp
    · simp
  · intro s i e h
    unfold is_alive
    rw [h]
  · intro s pos ms hlt hdead
    obtain ⟨h1, h2⟩ := applyMutations_dead s ms hlt hdead
    unfold is_alive
    rw [into_timeless_timeless, if_pos h1]
    simpa using h2

/-- Witness for C3 at concrete inputs. -/
theorem C3_witness :
    ((TracingVec.fromList [5] : TracingVec Nat).is_alive (.Timeless ⟨0⟩) = true ↔
      ∃ idx, (TracingVec.fromList [5] : TracingVec Nat).into_timeless (.Timeless ⟨0⟩) =
          .ok idx ∧ idx.pos ∈ (TracingVec.fromList [5] : TracingVec Nat).latest_snapshot) ∧
    (TracingVec.fromList [] : TracingVec Nat).is_alive (.Timeless ⟨0⟩) = false ∧
    ((TracingVec.mk [⟨5, 0⟩, ⟨6, 0⟩] [[0, 1], [1]] : TracingVec Nat).applyMutations
        [.push 9, .pop]).is_alive (.Timeless ⟨0⟩) = false :=
  ⟨C3_is_alive_characterization.1 (TracingVec.fromList [5]) (.Timeless ⟨0⟩),
    C3_is_alive_characterization.2.1 (TracingVec.fromList []) (.Timeless ⟨0⟩)
      (.DataDoesNotExist ⟨0⟩) rfl,
    C3_is_alive_characterization.2.2 (TracingVec.mk [⟨5, 0⟩, ⟨6, 0⟩] [[0, 1], [1]]) 0
      [.push 9, .pop] (by decide) (by decide)⟩

namespace TracingVec

variable {X : Type}

lemma try_insert_before_error {s : TracingVec X} {i : TracingIndex} {v : X}
    {e : IndexError} {s' : TracingVec X}
    (h : s.try_insert_before i v = (.error e, s')) :
    s' = s ∧ s.latest_index i = .error e := by
  unfold try_insert_before at h
  split at h
  · rename_i err e2
    have h1 := congrArg Prod.fst h
    have h2 := congrArg Prod.snd h
    simp only [Except.error.injEq] at h1
    simp only at h2
    exact ⟨h2.symm, h1 ▸ e2⟩
  · rw [try_insert_eq] at h
    exact absurd (congrArg Prod.fst h) (by simp)

lemma try_insert_after_error {s : TracingVec X} {i : TracingIndex} {v : X}
    {e : IndexError} {s' : TracingVec X}
    (h : s.try_insert_after i v = (.error e, s')) :
    s' = s ∧ s.latest_index i = .error e := by
  unfold try_insert_after at h
  split at h
  · rename_i err e2
    have h1 := congrArg Prod.fst h
    have h2 := congrArg Prod.snd h
    simp only [Except.error.injEq] at h1
    simp only at h2
    exact ⟨h2.symm, h1 ▸ e2⟩
  · rw [try_insert_eq] at h
    exact absurd (congrArg Prod.fst h) (by simp)

lemma try_remove_error {s : TracingVec X} {i : TracingIndex}
    {e : IndexError} {s' : TracingVec X}
    (h : s.try_remove i = (.error e, s')) :
    s' = s ∧ s.latest_index i = .error e := by
  unfold try_remove at h
  split at h
  · rename_i err e2
    have h1 := congrArg Prod.fst h
    have h2 := congrArg Prod.snd h
    simp only [Except.error.injEq] at h1
    simp only at h2
    exact ⟨h2.symm, h1 ▸ e2⟩
  · exact absurd (congrArg Prod.fst h) (by simp)

lemma try_remove_all_error {s : TracingVec X} {indices : List TracingIndex}
    {e : IndexError} {s' : TracingVec X}
    (h : s.try_remove_all indices = (.error e, s')) :
    s' = s ∧ (indices = [] ∧ e = .NoIndicesProvided ∨ s.resolve_all indices = .error e) := by
  unfold try_remove_all at h
  by_cases hemp : indices.isEmpty
  · rw [if_pos hemp] at h
    have h1 := congrArg Prod.fst h
    have h2 := congrArg Prod.snd h
    simp only [Except.error.injEq] at h1
    simp only at h2
    exact ⟨h2.symm, Or.inl ⟨List.isEmpty_iff.mp hemp, h1.symm⟩⟩
  · rw [if_neg hemp] at h
    split at h
    · rename_i err e2
      have h1 := congrArg Prod.fst h
      have h2 := congrArg Prod.snd h
      simp only [Except.error.injEq] at h1
      simp only at h2
      exact ⟨h2.symm, Or.inr (h1 ▸ e2)⟩
    · exact absurd (congrArg Prod.fst h) (by simp)

lemma try_replace_error {s : TracingVec X} {indices : List TracingIndex} {v : X}
    {e : IndexError} {s' : TracingVec X}
    (h : s.try_replace indices v = (.error e, s')) :
    s' = s ∧ (indices = [] ∧ e = .NoIndicesProvided ∨ s.resolve_all indices = .error e) := by
  unfold try_replace at h
  split at h
  · rename_i s1 err e2
    have h1 := congrArg Prod.fst h
    have h2 := congrArg Prod.snd h
    simp only [Except.error.injEq] at h1
    simp only at h2
    subst h1 h2
    exact try_remove_all_error e2
  · exact absurd (congrArg Prod.fst h) (by simp)

lemma try_replace_choose_error [Inhabited X] {s : TracingVec X} {indices : List TracingIndex}
    {choose : List Nat → Nat} {f : List X → X} {e : IndexError} {s' : TracingVec X}
    (h : s.try_replace_choose indices choose f = (.error e, s')) :
    s' = s ∧ (indices = [] ∧ e = .NoIndicesProvided ∨ s.resolve_all indices = .error e) := by
  unfold try_replace_choose at h
  split at h
  · rename_i s1 err e2
    have h1 := congrArg Prod.fst h
    have h2 := congrArg Prod.snd h
    simp only [Except.error.injEq] at h1
    simp only at h2
    subst h1 h2
    exact try_remove_all_error e2
  · exact absurd (congrArg Prod.fst h) (by simp)

end TracingVec

open TracingVec in
/-- C4: every mutation that takes input coordinates, when it returns an
error, leaves the state completely unchanged, and the error is the one
produced by resolving the inputs (latest_index for the single-coordinate
operations, the resolution pass for the batched ones, or NoIndicesProvided
for an empty batch); invoking a batched operation on an empty coordinate
list fails with NoIndicesProvided and leaves the state unchanged. -/
theorem C4_error_leaves_state_unchanged :
    (∀ (s : TracingVec Nat) (i : TracingIndex) (v : Nat) (e : IndexError)
        (s' : TracingVec Nat), s.try_insert_before i v = (.error e, s') →
        s' = s ∧ s.latest_index i = .error e) ∧
    (∀ (s : TracingVec Nat) (i : TracingIndex) (v : Nat) (e : IndexError)
        (s' : TracingVec Nat), s.try_insert_after i v = (.error e, s') →
        s' = s ∧ s.latest_index i = .error e) ∧
    (∀ (s : TracingVec Nat) (i : TracingIndex) (e : IndexError)
        (s' : TracingVec Nat), s.try_remove i = (.error e, s') →
        s' = s ∧ s.latest_index i = .error e) ∧
    (∀ (s : TracingVec Nat) (l : List TracingIndex) (v : Nat) (e : IndexError)
        (s' : TracingVec Nat), s.try_replace l v = (.error e, s') →
        s' = s ∧ (l = [] ∧ e = .NoIndicesProvided ∨ s.resolve_all l = .error e)) ∧
    (∀ (s : TracingVec Nat) (l : List TracingIndex) (f : List Nat → Nat) (e : IndexError)
        (s' : TracingVec Nat), s.try_replace_with l f = (.error e, s') →
        s' = s ∧ (l = [] ∧ e = .NoIndicesProvided ∨ s.resolve_all l = .error e)) ∧
    (∀ (s : TracingVec Nat) (l : List TracingIndex) (f : List Nat → Nat) (e : IndexError)
        (s' : TracingVec Nat), s.try_replace_at_last_with l f = (.error e, s') →
        s' = s ∧ (l = [] ∧ e = .NoIndicesProvided ∨ s.resolve_all l = .error e)) ∧
    (∀ (s : TracingVec Nat) (v : Nat),
        s.try_replace [] v = (.error .NoIndicesProvided, s)) ∧
    (∀ (s : TracingVec Nat) (f : List Nat → Nat),
        s.try_replace_with [] f = (.error .NoIndicesProvided, s)) ∧
    (∀ (s : TracingVec Nat) (f : List Nat → Nat),
        s.try_replace_at_last_with [] f = (.error .NoIndicesProvided, s)) := by
  refine ⟨?_, ?_, ?_, ?_, ?_, ?_, ?_, ?_, ?_⟩
  · intro s i v e s' h
    exact try_insert_before_error h
  · intro s i v e s' h
    exact try_insert_after_error h
  · intro s i e s' h
    exact try_remove_error h
  · intro s l v e s' h
    exact try_replace_error h
  · intro s l f e s' h
    exact try_replace_choose_error h
  · intro s l f e s' h
    exact try_replace_choose_error h
  · intro s v
    rfl
  · intro s f
    rfl
  · intro s f
    rfl

/-- Witness for C4 at concrete inputs. -/
theorem C4_witness :
    ((TracingVec.fromList [5] : TracingVec Nat) = TracingVec.fromList [5] ∧
      (TracingVec.fromList [5] : TracingVec Nat).latest_index (.Timeless ⟨3⟩) =
        .error (.DataDoesNotExist ⟨3⟩)) ∧
    (TracingVec.fromList [5] : TracingVec Nat).try_replace [] 9 =
      (.error .NoIndicesProvided, TracingVec.fromList [5]) :=
  ⟨C4_error_leaves_state_unchanged.1 (TracingVec.fromList [5]) (.Timeless ⟨3⟩) 7
      (.DataDoesNotExist ⟨3⟩) (TracingVec.fromList [5]) rfl,
    C4_error_leaves_state_unchanged.2.2.2.2.2.2.1 (TracingVec.fromList [5]) 9⟩

open TracingVec in
/-- C10: when the latest ordering is empty, pop returns none and still
appends a copy of the (empty) latest ordering as a new version, so
pseudotime advances by one while the ordering contents stay unchanged. -/
theorem C10_pop_on_empty_still_versions :
    ∀ (s : TracingVec Nat), s.snapshots ≠ [] → s.latest_snapshot = [] →
      s.pop = (none, s.new_snapshot) ∧
      (s.pop).2.snapshots = s.snapshots ++ [[]] ∧
      (s.pop).2.pseudotime = s.pseudotime + 1 ∧
      (s.pop).2.latest_snapshot = [] := by
  intro s hne hempty
  have he2 : (s.new_snapshot).latest_snapshot.getLast? = none := by
    rw [latest_snapshot_new_snapshot, hempty]
    rfl
  have hp : s.pop = (none, s.new_snapshot) := by
    simp only [pop, he2]
  have hsnap : (s.pop).2.snapshots = s.snapshots ++ [[]] := by
    rw [hp, new_snapshot_snapshots, hempty]
  refine ⟨hp, hsnap, pseudotime_of_concat hne hsnap, ?_⟩
  rw [hp]
  simp only [latest_snapshot_new_snapshot, hempty]

/-- Witness for C10 at a concrete input. -/
theorem C10_witness :
    (TracingVec.fromList [] : TracingVec Nat).pop =
        (none, (TracingVec.fromList [] : TracingVec Nat).new_snapshot) ∧
    ((TracingVec.fromList [] : TracingVec Nat).pop).2.snapshots =
        (TracingVec.fromList [] : TracingVec Nat).snapshots ++ [[]] ∧
    ((TracingVec.fromList [] : TracingVec Nat).pop).2.pseudotime =
        (TracingVec.fromList [] : TracingVec Nat).pseudotime + 1 ∧
    ((TracingVec.fromList [] : TracingVec Nat).pop).2.latest_snapshot = [] :=
  C10_pop_on_empty_still_versions (TracingVec.fromList []) (by decide) (by decide)

lemma getElem?_lt_of_eq_some {α : Type} {l : List α} {n : Nat} {a : α}
    (h : l[n]? = some a) : n < l.length := by
  by_contra hge
  rw [List.getElem?_eq_none (Nat.le_of_not_lt hge)] at h
  exact Option.noConfusion h

namespace TracingVec

variable {X : Type}


lemma val_location_error_elim {s : TracingVec X} {t : TimedIndex} {e : IndexError}
    (h : s.val_location t = .error e) :
    (e = .VersionDoesNotExist t ∧ s.snapshots[t.pseudotime]? = none) ∨
    (∃ snap, e = .IndexOutOfBounds t ∧ s.snapshots[t.pseudotime]? = some snap ∧
      snap[t.pos]? = none) := by
  unfold val_location at h
  split at h
  · rename_i e1
    simp only [Except.error.injEq] at h
    exact Or.inl ⟨h.symm, e1⟩
  · rename_i snap e1
    split at h
    · rename_i e2
      simp only [Except.error.injEq] at h
      exact Or.inr ⟨snap, h.symm, e1, e2⟩
    · exact absurd h (by simp)

lemma val_location_version_error_of (s : TracingVec X) (t : TimedIndex)
    (hle : s.snapshots.length ≤ t.pseudotime) :
    s.val_location t = .error (.VersionDoesNotExist t) := by
  unfold val_location
  simp only [List.getElem?_eq_none hle]

lemma val_location_bounds_error_of (s : TracingVec X) (t : TimedIndex) (snap : List Nat)
    (h1 : s.snapshots[t.pseudotime]? = some snap) (h2 : snap.length ≤ t.pos) :
    s.val_location t = .error (.IndexOutOfBounds t) := by
  unfold val_location
  simp only [h1, List.getElem?_eq_none h2]

lemma val_location_version_error_iff (s : TracingVec X) (t : TimedIndex) :
    s.val_location t = .error (.VersionDoesNotExist t) ↔
      s.snapshots.length ≤ t.pseudotime := by
  constructor
  · intro h
    rcases val_location_error_elim h with ⟨_, hnone⟩ | ⟨snap, habs, _, _⟩
    · exact List.getElem?_eq_none_iff.mp hnone
    · exact absurd habs (by simp)
  · exact val_location_version_error_of s t

lemma val_location_bounds_error_iff (s : TracingVec X) (t : TimedIndex) :
    s.val_location t = .error (.IndexOutOfBounds t) ↔
      ∃ snap, s.snapshots[t.pseudotime]? = some snap ∧ snap.length ≤ t.pos := by
  constructor
  · intro h
    rcases val_location_error_elim h with ⟨habs, _⟩ | ⟨snap, _, h1, h2⟩
    · exact absurd habs (by simp)
    · exact ⟨snap, h1, List.getElem?_eq_none_iff.mp h2⟩
  · rintro ⟨snap, h1, h2⟩
    exact val_location_bounds_error_of s t snap h1 h2

lemma into_timeless_timed_error_iff (s : TracingVec X) (t : TimedIndex) (e : IndexError) :
    s.into_timeless (.Timed t) = .error e ↔ s.val_location t = .error e := by
  rw [into_timeless_timed]
  constructor
  · intro h
    split at h
    · rename_i err e1
      simp only [Except.error.injEq] at h
      exact h ▸ e1
    · exact absurd h (by simp)
  · intro h
    rw [h]

end TracingVec

open TracingVec in
/-- C7: normalization to a content-stable identifier fails with
VersionDoesNotExist exactly when a version-stable coordinate names a
pseudotime beyond the version chain, with IndexOutOfBounds exactly when its
position is beyond that version ordering length, with DataDoesNotExist
exactly when a content-stable identifier names an arena position beyond the
arena length, and otherwise returns the content-stable identifier (the
ordering entry for a version-stable coordinate, the input unchanged for a
content-stable one). -/
theorem C7_into_timeless_error_taxonomy :
    ∀ (s : TracingVec Nat),
      (∀ t : TimedIndex,
          s.into_timeless (.Timed t) = .error (.VersionDoesNotExist t) ↔
            s.snapshots.length ≤ t.pseudotime) ∧
      (∀ t : TimedIndex,
          s.into_timeless (.Timed t) = .error (.IndexOutOfBounds t) ↔
            ∃ snap, s.snapshots[t.pseudotime]? = some snap ∧ snap.length ≤ t.pos) ∧
      (∀ (t : TimedIndex) (snap : List Nat) (a : Nat),
          s.snapshots[t.pseudotime]? = some snap → snap[t.pos]? = some a →
          s.into_timeless (.Timed t) = .ok ⟨a⟩) ∧
      (∀ tl : TimelessIndex,
          s.into_timeless (.Timeless tl) = .error (.DataDoesNotExist tl) ↔
            s.mem.length ≤ tl.pos) ∧
      (∀ tl : TimelessIndex,
          tl.pos < s.mem.length → s.into_timeless (.Timeless tl) = .ok tl) := by
  intro s
  refine ⟨?_, ?_, ?_, ?_, ?_⟩
  · intro t
    rw [into_timeless_timed_error_iff]
    exact val_location_version_error_iff s t
  · intro t
    rw [into_timeless_timed_error_iff]
    exact val_location_bounds_error_iff s t
  · intro t snap a h1 h2
    rw [into_timeless_timed, (val_location_ok_iff s t a).mpr ⟨snap, h1, h2⟩]
  · intro tl
    rw [into_timeless_timeless]
    by_cases h : s.mem.length > tl.pos
    · rw [if_pos h]
      constructor
      · intro hcon
        exact absurd hcon (by simp)
      · intro hle
        exact absurd hle (by omega)
    · rw [if_neg h]
      constructor
      · intro _
        omega
      · intro _
        rfl
  · intro tl hlt
    rw [into_timeless_timeless, if_pos hlt]

/-- Witness for C7 at concrete inputs. -/
theorem C7_witness :
    ((TracingVec.fromList [5] : TracingVec Nat).into_timeless
        (.Timed { pos := 0, pseudotime := 3 }) =
          .error (.VersionDoesNotExist { pos := 0, pseudotime := 3 }) ↔
      (TracingVec.fromList [5] : TracingVec Nat).snapshots.length ≤ 3) ∧
    (TracingVec.fromList [5] : TracingVec Nat).into_timeless
        (.Timed { pos := 0, pseudotime := 0 }) = .ok ⟨0⟩ ∧
    ((TracingVec.fromList [5] : TracingVec Nat).into_timeless (.Timeless ⟨4⟩) =
          .error (.DataDoesNotExist ⟨4⟩) ↔
      (TracingVec.fromList [5] : TracingVec Nat).mem.length ≤ 4) ∧
    (TracingVec.fromList [5] : TracingVec Nat).into_timeless (.Timeless ⟨0⟩) = .ok ⟨0⟩ :=
  ⟨(C7_into_timeless_error_taxonomy (TracingVec.fromList [5])).1
      { pos := 0, pseudotime := 3 },
    (C7_into_timeless_error_taxonomy (TracingVec.fromList [5])).2.2.1
      { pos := 0, pseudotime := 0 } [0] 0 rfl rfl,
    (C7_into_timeless_error_taxonomy (TracingVec.fromList [5])).2.2.2.1 ⟨4⟩,
    (C7_into_timeless_error_taxonomy (TracingVec.fromList [5])).2.2.2.2 ⟨0⟩ (by decide)⟩

namespace TracingVec

variable {X : Type}

lemma is_alive_false_of_dead (s : TracingVec X) (pos : Nat)
    (hdead : pos ∉ s.latest_snapshot) :
    s.is_alive (.Timeless ⟨pos⟩) = false := by
  cases hb : s.is_alive (.Timeless ⟨pos⟩)
  · rfl
  · exact absurd ((is_alive_timeless_iff s ⟨pos⟩).mp hb).2 hdead

lemma latest_index_dead {s : TracingVec X} {i : TracingIndex} {pos : Nat}
    (h : s.into_timeless i = .ok ⟨pos⟩) (hdead : pos ∉ s.latest_snapshot) :
    s.latest_index i = .error (.DataAlreadyDead ⟨pos⟩) := by
  unfold latest_index
  simp only [h]
  rw [if_neg (by simp [is_alive_false_of_dead s pos hdead])]

end TracingVec

open TracingVec in
/-- C8: once the arena position an existing coordinate resolves to is no
longer in the latest ordering, every current-position resolution of that
coordinate (latest_index, into_timed, is_before, and the mutations that
resolve it) fails with DataAlreadyDead and mutations leave the state
unchanged, while get with the content-stable identifier still succeeds and
returns the stored value. -/
theorem C8_removed_data_already_dead :
    ∀ (s : TracingVec Nat) (i : TracingIndex) (pos : Nat),
      s.into_timeless i = .ok ⟨pos⟩ → pos ∉ s.latest_snapshot →
      s.latest_index i = .error (.DataAlreadyDead ⟨pos⟩) ∧
      s.into_timed i = .error (.DataAlreadyDead ⟨pos⟩) ∧
      (∀ j : TracingIndex, s.is_before i j = .error (.DataAlreadyDead ⟨pos⟩)) ∧
      (∀ v : Nat, s.try_insert_before i v = (.error (.DataAlreadyDead ⟨pos⟩), s)) ∧
      (∀ v : Nat, s.try_insert_after i v = (.error (.DataAlreadyDead ⟨pos⟩), s)) ∧
      s.try_remove i = (.error (.DataAlreadyDead ⟨pos⟩), s) ∧
      (pos < s.mem.length →
        s.get (.Timeless ⟨pos⟩) = .ok (s.mem.getD pos default).val) := by
  intro s i pos h hdead
  have hli := latest_index_dead h hdead
  refine ⟨hli, ?_, ?_, ?_, ?_, ?_, ?_⟩
  · unfold into_timed
    simp only [hli]
  · intro j
    unfold is_before
    simp only [hli]
  · intro v
    unfold try_insert_before
    simp only [hli]
  · intro v
    unfold try_insert_after
    simp only [hli]
  · unfold try_remove
    simp only [hli]
  · intro hlt
    unfold TracingVec.get
    rw [into_timeless_timeless, if_pos hlt]

/-- Witness for C8 at concrete inputs. -/
theorem C8_witness :
    (TracingVec.mk [⟨5, 0⟩, ⟨6, 0⟩] [[0, 1], [1]] : TracingVec Nat).latest_index
        (.Timeless ⟨0⟩) = .error (.DataAlreadyDead ⟨0⟩) ∧
    (TracingVec.mk [⟨5, 0⟩, ⟨6, 0⟩] [[0, 1], [1]] : TracingVec Nat).into_timed
        (.Timeless ⟨0⟩) = .error (.DataAlreadyDead ⟨0⟩) ∧
    (∀ j : TracingIndex,
        (TracingVec.mk [⟨5, 0⟩, ⟨6, 0⟩] [[0, 1], [1]] : TracingVec Nat).is_before
          (.Timeless ⟨0⟩) j = .error (.DataAlreadyDead ⟨0⟩)) ∧
    (∀ v : Nat,
        (TracingVec.mk [⟨5, 0⟩, ⟨6, 0⟩] [[0, 1], [1]] : TracingVec Nat).try_insert_before
          (.Timeless ⟨0⟩) v =
          (.error (.DataAlreadyDead ⟨0⟩), TracingVec.mk [⟨5, 0⟩, ⟨6, 0⟩] [[0, 1], [1]])) ∧
    (∀ v : Nat,
        (TracingVec.mk [⟨5, 0⟩, ⟨6, 0⟩] [[0, 1], [1]] : TracingVec Nat).try_insert_after
          (.Timeless ⟨0⟩) v =
          (.error (.DataAlreadyDead ⟨0⟩), TracingVec.mk [⟨5, 0⟩, ⟨6, 0⟩] [[0, 1], [1]])) ∧
    (TracingVec.mk [⟨5, 0⟩, ⟨6, 0⟩] [[0, 1], [1]] : TracingVec Nat).try_remove
        (.Timeless ⟨0⟩) =
        (.error (.DataAlreadyDead ⟨0⟩), TracingVec.mk [⟨5, 0⟩, ⟨6, 0⟩] [[0, 1], [1]]) ∧
    ((0 : Nat) < (TracingVec.mk [⟨5, 0⟩, ⟨6, 0⟩] [[0, 1], [1]] : TracingVec Nat).mem.length →
      (TracingVec.mk [⟨5, 0⟩, ⟨6, 0⟩] [[0, 1], [1]] : TracingVec Nat).get (.Timeless ⟨0⟩) =
        .ok ((TracingVec.mk [⟨5, 0⟩, ⟨6, 0⟩] [[0, 1], [1]] : TracingVec Nat).mem.getD 0
          default).val) :=
  C8_removed_data_already_dead (TracingVec.mk [⟨5, 0⟩, ⟨6, 0⟩] [[0, 1], [1]])
    (.Timeless ⟨0⟩) 0 rfl (by decide)

open TracingVec in
/-- C9 (amended): for valid, alive coordinates, is_before compares the two
current positions in the latest ordering, returning whether the first
resolves to a position less than or equal to the second (not strictly
earlier, and not by arena position or birth). -/
theorem C9_is_before_compares_current_positions :
    ∀ (s : TracingVec Nat) (a b : TracingIndex) (pa pb : Nat),
      s.latest_index a = .ok pa → s.latest_index b = .ok pb →
      s.is_before a b = .ok (decide (pa ≤ pb)) := by
  intro s a b pa pb ha hb
  unfold is_before
  simp only [ha, hb]

/-- Counterexample for C9 as stated: two distinct valid, alive coordinates
that resolve to the same current position (position 0) make is_before
return true in both directions, although neither is strictly earlier than
the other in the live ordering. -/
theorem C9_counterexample :
    (TracingVec.fromList [10] : TracingVec Nat).latest_index
        (.Timed { pos := 0, pseudotime := 0 }) = .ok 0 ∧
    (TracingVec.fromList [10] : TracingVec Nat).latest_index (.Timeless ⟨0⟩) = .ok 0 ∧
    (.Timed { pos := 0, pseudotime := 0 } : TracingIndex) ≠ .Timeless ⟨0⟩ ∧
    (TracingVec.fromList [10] : TracingVec Nat).is_before
        (.Timed { pos := 0, pseudotime := 0 }) (.Timeless ⟨0⟩) = .ok true ∧
    (TracingVec.fromList [10] : TracingVec Nat).is_before (.Timeless ⟨0⟩)
        (.Timed { pos := 0, pseudotime := 0 }) = .ok true :=
  ⟨rfl, rfl, by decide, rfl, rfl⟩

/-- Witness for C9 at concrete inputs. -/
theorem C9_witness :
    (TracingVec.fromList [10, 20] : TracingVec Nat).is_before (.Timeless ⟨0⟩)
        (.Timeless ⟨1⟩) = .ok (decide ((0 : Nat) ≤ 1)) :=
  C9_is_before_compares_current_positions (TracingVec.fromList [10, 20])
    (.Timeless ⟨0⟩) (.Timeless ⟨1⟩) 0 1 rfl rfl

namespace TracingVec

variable {X : Type}

lemma mem_sort_insert {z x : Nat × Nat} :
    ∀ {l : List (Nat × Nat)}, z ∈ sort_insert x l → z = x ∨ z ∈ l
  | [], h => by simpa [sort_insert] using h
  | y :: l, h => by
    unfold sort_insert at h
    by_cases hc : x.2 ≤ y.2
    · rw [if_pos hc] at h
      simpa using h
    · rw [if_neg hc] at h
      rcases List.mem_cons.mp h with h' | h'
      · exact Or.inr (List.mem_cons.mpr (Or.inl h'))
      · rcases mem_sort_insert h' with h'' | h''
        · exact Or.inl h''
        · exact Or.inr (List.mem_cons.mpr (Or.inr h''))

lemma pairwise_sort_insert (x : Nat × Nat) :
    ∀ {l : List (Nat × Nat)}, l.Pairwise (fun a b => a.2 ≤ b.2) →
      (sort_insert x l).Pairwise (fun a b => a.2 ≤ b.2)
  | [], _ => by simp [sort_insert]
  | y :: l, h => by
    unfold sort_insert
    obtain ⟨hy, hl⟩ := List.pairwise_cons.mp h
    by_cases hc : x.2 ≤ y.2
    · rw [if_pos hc]
      refine List.pairwise_cons.mpr ⟨?_, h⟩
      intro z hz
      rcases List.mem_cons.mp hz with h' | h'
      · exact h' ▸ hc
      · exact le_trans hc (hy z h')
    · rw [if_neg hc]
      refine List.pairwise_cons.mpr ⟨?_, pairwise_sort_insert x hl⟩
      intro z hz
      rcases mem_sort_insert hz with h' | h'
      · exact h' ▸ le_of_not_le hc
      · exact hy z h'

lemma perm_sort_insert (x : Nat × Nat) :
    ∀ (l : List (Nat × Nat)), List.Perm (sort_insert x l) (x :: l)
  | [] => by simp [sort_insert]
  | y :: l => by
    unfold sort_insert
    by_cases hc : x.2 ≤ y.2
    · rw [if_pos hc]
    · rw [if_neg hc]
      exact ((perm_sort_insert x l).cons y).trans (List.Perm.swap x y l)

lemma pairwise_sort_by_abs :
    ∀ (l : List (Nat × Nat)), (sort_by_abs l).Pairwise (fun a b => a.2 ≤ b.2)
  | [] => by simp [sort_by_abs]
  | x :: l => by
    unfold sort_by_abs
    exact pairwise_sort_insert x (pairwise_sort_by_abs l)

lemma perm_sort_by_abs : ∀ (l : List (Nat × Nat)), List.Perm (sort_by_abs l) l
  | [] => by simp [sort_by_abs]
  | x :: l => by
    unfold sort_by_abs
    exact (perm_sort_insert x _).trans ((perm_sort_by_abs l).cons x)

lemma resolve_loop_ok_length {s : TracingVec X} :
    ∀ {L : List (Nat × TracingIndex)} {ais : List (Nat × Nat)},
      resolve_loop s L = .ok ais → ais.length = L.length
  | [], ais, h => by
    simp only [resolve_loop, Except.ok.injEq] at h
    rw [← h]
    rfl
  | (p, i) :: rest, ais, h => by
    unfold resolve_loop at h
    split at h
    · exact absurd h (by simp)
    · rename_i abs e1
      split at h
      · exact absurd h (by simp)
      · rename_i tail e2
        simp only [Except.ok.injEq] at h
        rw [← h]
        simpa using resolve_loop_ok_length e2

lemma resolve_loop_ok_fst {s : TracingVec X} :
    ∀ {L : List (Nat × TracingIndex)} {ais : List (Nat × Nat)},
      resolve_loop s L = .ok ais → ais.map Prod.fst = L.map Prod.fst
  | [], ais, h => by
    simp only [resolve_loop, Except.ok.injEq] at h
    rw [← h]
    rfl
  | (p, i) :: rest, ais, h => by
    unfold resolve_loop at h
    split at h
    · exact absurd h (by simp)
    · rename_i abs e1
      split at h
      · exact absurd h (by simp)
      · rename_i tail e2
        simp only [Except.ok.injEq] at h
        rw [← h]
        simpa using resolve_loop_ok_fst e2

lemma resolve_loop_ok_mem {s : TracingVec X} :
    ∀ {L : List (Nat × TracingIndex)} {ais : List (Nat × Nat)},
      resolve_loop s L = .ok ais → ∀ pa ∈ ais, ∃ i, s.latest_index i = .ok pa.2
  | [], ais, h => by
    simp only [resolve_loop, Except.ok.injEq] at h
    rw [← h]
    simp
  | (p, i) :: rest, ais, h => by
    unfold resolve_loop at h
    split at h
    · exact absurd h (by simp)
    · rename_i abs e1
      split at h
      · exact absurd h (by simp)
      · rename_i tail e2
        simp only [Except.ok.injEq] at h
        intro pa hpa
        rw [← h] at hpa
        rcases List.mem_cons.mp hpa with h' | h'
        · exact ⟨i, h' ▸ e1⟩
        · exact resolve_loop_ok_mem e2 pa h'

lemma resolve_all_ok_length {s : TracingVec X} {indices : List TracingIndex}
    {ais : List (Nat × Nat)} (h : s.resolve_all indices = .ok ais) :
    ais.length = indices.length := by
  rw [resolve_loop_ok_length h]
  simp

lemma resolve_all_ok_fst {s : TracingVec X} {indices : List TracingIndex}
    {ais : List (Nat × Nat)} (h : s.resolve_all indices = .ok ais) :
    ais.map Prod.fst = List.range indices.length := by
  rw [resolve_loop_ok_fst h]
  exact List.enum_map_fst indices

lemma resolve_all_ok_abs_lt {s : TracingVec X} {indices : List TracingIndex}
    {ais : List (Nat × Nat)} (h : s.resolve_all indices = .ok ais) :
    ∀ pa ∈ ais, pa.2 < s.latest_snapshot.length := by
  intro pa hpa
  obtain ⟨i, hi⟩ := resolve_loop_ok_mem h pa hpa
  exact (latest_index_ok_lt hi).1

end TracingVec

namespace TracingVec

variable {X : Type}

lemma remove_loop_snd_length :
    ∀ (L : List (Nat × Nat)) (snap : List Nat) (removed : List (Option TimelessIndex)),
      (remove_loop snap removed L).2.length = removed.length
  | [], snap, removed => rfl
  | (p, idx) :: rest, snap, removed => by
    simp only [remove_loop]
    rw [remove_loop_snd_length rest]
    exact List.length_set removed p _

lemma remove_loop_snd_frame :
    ∀ (L : List (Nat × Nat)) (snap : List Nat) (removed : List (Option TimelessIndex))
      (k : Nat), k ∉ L.map Prod.fst →
      (remove_loop snap removed L).2[k]? = removed[k]?
  | [], snap, removed, k, _ => rfl
  | (p, idx) :: rest, snap, removed, k, hk => by
    simp only [List.map_cons, List.mem_cons] at hk
    push_neg at hk
    simp only [remove_loop]
    rw [remove_loop_snd_frame rest _ _ k hk.2]
    exact List.getElem?_set_ne (fun hc => hk.1 hc.symm)

lemma remove_loop_snd_spec (orig : List Nat) :
    ∀ (L : List (Nat × Nat)) (snap : List Nat) (removed : List (Option TimelessIndex)),
      (∀ pa ∈ L, snap[pa.2]? = orig[pa.2]?) →
      L.Pairwise (fun a b => b.2 < a.2) →
      (∀ pa ∈ L, pa.1 < removed.length) →
      (L.map Prod.fst).Nodup →
      ∀ pa ∈ L, (remove_loop snap removed L).2[pa.1]? = some (some ⟨orig.getD pa.2 0⟩)
  | [], snap, removed, _, _, _, _ => by
    intro pa hpa
    simp at hpa
  | (p, idx) :: rest, snap, removed, hagree, hdesc, hposlt, hnodup => by
    intro pa hpa
    obtain ⟨hdhead, hdtail⟩ := List.pairwise_cons.mp hdesc
    simp only [List.map_cons] at hnodup
    obtain ⟨hnhead, hntail⟩ := List.nodup_cons.mp hnodup
    have hval : snap.getD idx 0 = orig.getD idx 0 := by
      rw [List.getD_eq_getElem?_getD, List.getD_eq_getElem?_getD,
        hagree (p, idx) (List.mem_cons_self _ _)]
    simp only [remove_loop]
    rcases List.mem_cons.mp hpa with h' | h'
    · subst h'
      rw [remove_loop_snd_frame rest _ _ p hnhead]
      rw [List.getElem?_set_self (by simpa using hposlt (p, idx) (List.mem_cons_self _ _))]
      rw [hval]
    · refine remove_loop_snd_spec orig rest (snap.eraseIdx idx)
        (removed.set p (some ⟨snap.getD idx 0⟩)) ?_ hdtail ?_ hntail pa h'
      · intro pb hpb
        rw [List.getElem?_eraseIdx, if_pos (hdhead pb hpb)]
        exact hagree pb (List.mem_cons_of_mem _ hpb)
      · intro pb hpb
        rw [List.length_set]
        exact hposlt pb (List.mem_cons_of_mem _ hpb)

lemma try_remove_all_eq (s : TracingVec X) (indices : List TracingIndex)
    (ais : List (Nat × Nat)) (hne : indices ≠ [])
    (hres : s.resolve_all indices = .ok ais) :
    s.try_remove_all indices =
      (.ok ((ais.headD (0, 0)).2 ::
              interleave_loop (ais.headD (0, 0)).2 (ais.map (fun x => x.2)),
            (remove_loop s.latest_snapshot (List.replicate ais.length none)
                (sort_by_abs ais).reverse).2.map (fun o => o.getD { pos := 0 })),
        (s.new_snapshot).set_latest
          (remove_loop s.latest_snapshot (List.replicate ais.length none)
              (sort_by_abs ais).reverse).1) := by
  unfold try_remove_all
  rw [if_neg (fun hc => hne (List.isEmpty_iff.mp hc))]
  simp only [hres, latest_snapshot_new_snapshot]

end TracingVec

open TracingVec in
/-- C5 (amended): for every non-empty list of valid, alive coordinates whose
resolved current positions are pairwise distinct, batched removal resolves
each coordinate in caller order (position k of the resolution list carries
input index k), removes the resolved positions from the new ordering from
highest to lowest so that no pending removal position shifts, and the
returned identifier at output position k is exactly the latest-ordering
entry at the position resolved for input k. -/
theorem C5_batched_removal_order :
    ∀ (s : TracingVec Nat) (indices : List TracingIndex) (ais : List (Nat × Nat)),
      indices ≠ [] → s.resolve_all indices = .ok ais →
      (ais.map (fun x => x.2)).Nodup →
      ∃ inter rem s1, s.try_remove_all indices = (.ok (inter, rem), s1) ∧
        rem.length = indices.length ∧
        ∀ (k : Nat) (pa : Nat × Nat), ais[k]? = some pa →
          pa.1 = k ∧ ∃ w, s.latest_snapshot[pa.2]? = some w ∧ rem[k]? = some ⟨w⟩ := by
  intro s indices ais hne hres hnodup
  have heq := try_remove_all_eq s indices ais hne hres
  have hlen := resolve_all_ok_length hres
  have hfst := resolve_all_ok_fst hres
  refine ⟨_, _, _, heq, ?_, ?_⟩
  · rw [List.length_map, remove_loop_snd_length, List.length_replicate]
    exact hlen
  · intro k pa hk
    have hkN : k < ais.length := getElem?_lt_of_eq_some hk
    have hpa1 : pa.1 = k := by
      have h1 : (ais.map Prod.fst)[k]? = some pa.1 := by
        rw [List.getElem?_map, hk]
        rfl
      rw [hfst] at h1
      have h2 : (List.range indices.length)[k]? = some k := by
        simp [List.getElem?_range, hlen ▸ hkN]
      rw [h2] at h1
      exact (Option.some.injEq .. ▸ h1).symm
    have hmem : pa ∈ ais := List.getElem?_mem hk
    have habs := resolve_all_ok_abs_lt hres pa hmem
    have hw : s.latest_snapshot[pa.2]? = some (s.latest_snapshot.getD pa.2 0) := by
      rcases e : s.latest_snapshot[pa.2]? with _ | w
      · exact absurd (List.getElem?_eq_none_iff.mp e) (by omega)
      · rw [List.getD_eq_getElem?_getD, e]
        rfl
    refine ⟨hpa1, s.latest_snapshot.getD pa.2 0, hw, ?_⟩
    have hsorted := pairwise_sort_by_abs ais
    have hperm := perm_sort_by_abs ais
    have hsortnodup : ((sort_by_abs ais).map (fun x => x.2)).Nodup :=
      ((hperm.map (fun x => x.2)).nodup_iff).mpr hnodup
    have hstrict : (sort_by_abs ais).Pairwise (fun a b => a.2 < b.2) :=
      (hsorted.and (List.pairwise_map.mp hsortnodup)).imp
        (fun h => lt_of_le_of_ne h.1 h.2)
    have hdesc : ((sort_by_abs ais).reverse).Pairwise (fun a b => b.2 < a.2) :=
      List.pairwise_reverse.mpr hstrict
    have hmemL : pa ∈ (sort_by_abs ais).reverse :=
      List.mem_reverse.mpr (hperm.mem_iff.mpr hmem)
    have hposlt : ∀ pb ∈ (sort_by_abs ais).reverse,
        pb.1 < (List.replicate ais.length (none : Option TimelessIndex)).length := by
      intro pb hpb
      have hpb2 : pb ∈ ais := hperm.mem_iff.mp (List.mem_reverse.mp hpb)
      have : pb.1 ∈ ais.map Prod.fst := List.mem_map.mpr ⟨pb, hpb2, rfl⟩
      rw [hfst, List.mem_range] at this
      rw [List.length_replicate]
      omega
    have hnodupL : (((sort_by_abs ais).reverse).map Prod.fst).Nodup := by
      rw [List.map_reverse, List.nodup_reverse]
      refine ((hperm.map Prod.fst).nodup_iff).mpr ?_
      rw [hfst]
      exact List.nodup_range _
    have hspec := remove_loop_snd_spec s.latest_snapshot ((sort_by_abs ais).reverse)
      s.latest_snapshot (List.replicate ais.length none)
      (fun _ _ => rfl) hdesc hposlt hnodupL pa hmemL
    rw [List.getElem?_map, ← hpa1, hspec]
    rfl

/-- Counterexample for C5 as stated: on the vector [10, 20, 30] with both
input coordinates referring to arena position 0 (both valid and alive), the
returned identifier list is [1, 0]: its first element names arena entry 1
(value 20), which neither input coordinate referred to, because the second
removal at absolute position 0 removed an element that had shifted. -/
theorem C5_counterexample :
    (TracingVec.fromList [10, 20, 30] : TracingVec Nat).is_alive (.Timeless ⟨0⟩) = true ∧
    (TracingVec.fromList [10, 20, 30] : TracingVec Nat).resolve_all
        [.Timeless ⟨0⟩, .Timeless ⟨0⟩] = .ok [(0, 0), (1, 0)] ∧
    ((TracingVec.fromList [10, 20, 30] : TracingVec Nat).try_remove_all
        [.Timeless ⟨0⟩, .Timeless ⟨0⟩]).1 = .ok ([0], [⟨1⟩, ⟨0⟩]) ∧
    (⟨1⟩ : TimelessIndex) ≠ ⟨0⟩ :=
  ⟨rfl, rfl, rfl, by decide⟩

/-- Witness for C5 at concrete inputs. -/
theorem C5_witness :
    ∃ inter rem s1,
      (TracingVec.fromList [10, 20, 30, 40, 50] : TracingVec Nat).try_remove_all
          [.Timeless ⟨1⟩, .Timeless ⟨4⟩] = (.ok (inter, rem), s1) ∧
      rem.length = [TracingIndex.Timeless ⟨1⟩, .Timeless ⟨4⟩].length ∧
      ∀ (k : Nat) (pa : Nat × Nat), [(0, 1), (1, 4)][k]? = some pa →
        pa.1 = k ∧ ∃ w,
          (TracingVec.fromList [10, 20, 30, 40, 50] :
            TracingVec Nat).latest_snapshot[pa.2]? = some w ∧ rem[k]? = some ⟨w⟩ :=
  C5_batched_removal_order (TracingVec.fromList [10, 20, 30, 40, 50])
    [.Timeless ⟨1⟩, .Timeless ⟨4⟩] [(0, 1), (1, 4)] (by decide) rfl (by decide)

/-- Modelled from the spec (refinement target for the anchor candidate
list): the positions strictly between p and q, in increasing order. -/
def strictlyBetween (p q : Nat) : List Nat := List.range' (p + 1) (q - (p + 1))

/-- Modelled from the spec (refinement target): walking the caller-supplied
resolved positions, append for each subsequent position every position
strictly between the previous resolved position and the current one. -/
def specGaps : Nat → List Nat → List Nat
  | _, [] => []
  | prev, a :: rest => strictlyBetween prev a ++ specGaps a rest

/-- Modelled from the spec (refinement target): the anchor candidate list is
the first resolved position followed by the gap positions. -/
def specAnchorList : List Nat → List Nat
  | [] => []
  | a :: rest => a :: specGaps a rest

namespace TracingVec

variable {X : Type}

lemma interleave_loop_specGaps :
    ∀ (rest : List Nat) (prev : Nat), interleave_loop (prev + 1) rest = specGaps prev rest
  | [], _ => rfl
  | a :: rest, prev => by
    unfold interleave_loop specGaps
    rw [interleave_loop_specGaps rest a]
    rfl

lemma anchor_eq_specAnchorList (a : Nat) (rest : List Nat) :
    a :: interleave_loop a (a :: rest) = specAnchorList (a :: rest) := by
  unfold interleave_loop specAnchorList
  rw [Nat.sub_self]
  rw [interleave_loop_specGaps rest a]
  rfl

lemma try_replace_choose_ok_parts [Inhabited X] (s : TracingVec X)
    (indices : List TracingIndex) (choose : List Nat → Nat) (f : List X → X)
    {inter : List Nat} {rem : List TimelessIndex} {s1 : TracingVec X}
    (h : s.try_remove_all indices = (.ok (inter, rem), s1)) :
    ∃ ti s2, s.try_replace_choose indices choose f = (.ok ti, s2) ∧
      ti.pos = choose inter ∧
      s2.latest_snapshot = vec_insert (choose inter) s1.mem.length s1.latest_snapshot := by
  unfold try_replace_choose
  rw [h]
  refine ⟨_, _, rfl, rfl, ?_⟩
  rw [latest_snapshot_set_latest]
  congr 1
  simp [last_obj_index]

lemma try_replace_ok_parts (s : TracingVec X) (indices : List TracingIndex) (v : X)
    {inter : List Nat} {rem : List TimelessIndex} {s1 : TracingVec X}
    (h : s.try_remove_all indices = (.ok (inter, rem), s1)) :
    ∃ s2, s.try_replace indices v = (.ok rem, s2) ∧
      s2.latest_snapshot = vec_insert (inter.headD 0) s1.mem.length s1.latest_snapshot := by
  unfold try_replace
  rw [h]
  refine ⟨_, rfl, ?_⟩
  rw [latest_snapshot_set_latest]
  congr 1
  simp [last_obj_index]

end TracingVec


/-- Models `Vec::insert` with the Rust panic made explicit: `none` exactly
when the index exceeds the length, otherwise the inserted list. -/
def vec_insert_checked {α : Type} (n : Nat) (a : α) (l : List α) : Option (List α) :=
  if n ≤ l.length then some (vec_insert n a l) else none

namespace TracingVec

variable {X : Type}

/-- The removal loop of `try_remove_all` with the `Vec::remove` panic made
explicit: `none` as soon as a pending removal position is out of bounds of
the progressively shortened ordering. -/
def remove_loop_checked : List Nat → List (Option TimelessIndex) → List (Nat × Nat) →
    Option (List Nat × List (Option TimelessIndex))
  | snap, removed, [] => some (snap, removed)
  | snap, removed, (position, index) :: rest =>
    match snap[index]? with
    | none => none
    | some pos =>
      remove_loop_checked (snap.eraseIdx index) (removed.set position (some { pos := pos })) rest

lemma remove_loop_checked_eq :
    ∀ (L : List (Nat × Nat)) (snap : List Nat) (removed : List (Option TimelessIndex)),
      L.Pairwise (fun a b => b.2 < a.2) →
      (∀ pa ∈ L, pa.2 < snap.length) →
      remove_loop_checked snap removed L = some (remove_loop snap removed L)
  | [], snap, removed, _, _ => rfl
  | (p, idx) :: rest, snap, removed, hdesc, hlt => by
    obtain ⟨hdhead, hdtail⟩ := List.pairwise_cons.mp hdesc
    have hidx : idx < snap.length := hlt (p, idx) (List.mem_cons_self _ _)
    have hsome : snap[idx]? = some (snap.getD idx 0) := by
      rcases e : snap[idx]? with _ | w
      · exact absurd (List.getElem?_eq_none_iff.mp e) (by omega)
      · rw [List.getD_eq_getElem?_getD, e]
        rfl
    simp only [remove_loop_checked, remove_loop, hsome]
    refine remove_loop_checked_eq rest (snap.eraseIdx idx)
      (removed.set p (some { pos := snap.getD idx 0 })) hdtail ?_
    intro pb hpb
    rw [List.length_eraseIdx, if_pos hidx]
    have := hdhead pb hpb
    omega

lemma sort_reverse_desc {ais : List (Nat × Nat)}
    (hnodup : (ais.map (fun x => x.2)).Nodup) :
    ((sort_by_abs ais).reverse).Pairwise (fun a b => b.2 < a.2) := by
  have hsorted := pairwise_sort_by_abs ais
  have hperm := perm_sort_by_abs ais
  have hsortnodup : ((sort_by_abs ais).map (fun x => x.2)).Nodup :=
    ((hperm.map (fun x => x.2)).nodup_iff).mpr hnodup
  have hstrict : (sort_by_abs ais).Pairwise (fun a b => a.2 < b.2) :=
    (hsorted.and (List.pairwise_map.mp hsortnodup)).imp
      (fun h => lt_of_le_of_ne h.1 h.2)
  exact List.pairwise_reverse.mpr hstrict

lemma sort_reverse_keys_lt {s : TracingVec X} {indices : List TracingIndex}
    {ais : List (Nat × Nat)} (hres : s.resolve_all indices = .ok ais) :
    ∀ pa ∈ (sort_by_abs ais).reverse, pa.2 < s.latest_snapshot.length := by
  intro pa hpa
  exact resolve_all_ok_abs_lt hres pa
    ((perm_sort_by_abs ais).mem_iff.mp (List.mem_reverse.mp hpa))

end TracingVec

open TracingVec in
/-- C6 (amended): for a non-empty list of valid, alive coordinates with
pairwise distinct resolved current positions (so that the descending
removal pass never feeds Vec::remove an out-of-bounds index), the anchor
candidate list built by batched removal is the first resolved position
followed, for each subsequent resolved position, by every position strictly
between the previous resolved position and the current one (in walking
order, never the resolved positions themselves); and provided the selected
anchor does not exceed the length of the ordering left after the removals
(otherwise Vec::insert panics), try_replace and try_replace_with insert the
new arena entry at the list head and try_replace_at_last_with at its last
element.  The removal pass and the insertions are stated through the
checked primitives, whose some-results certify the Rust panic paths are not
taken. -/
theorem C6_anchor_candidate_list :
    ∀ (s : TracingVec Nat) (indices : List TracingIndex) (ais : List (Nat × Nat)),
      indices ≠ [] → s.resolve_all indices = .ok ais →
      (ais.map (fun x => x.2)).Nodup →
      ∃ inter rem s1, s.try_remove_all indices = (.ok (inter, rem), s1) ∧
        remove_loop_checked s.latest_snapshot (List.replicate ais.length none)
            (sort_by_abs ais).reverse =
          some (s1.latest_snapshot,
            (remove_loop s.latest_snapshot (List.replicate ais.length none)
                (sort_by_abs ais).reverse).2) ∧
        inter = specAnchorList (ais.map (fun x => x.2)) ∧
        inter.headD 0 = (ais.map (fun x => x.2)).headD 0 ∧ inter ≠ [] ∧
        (inter.headD 0 ≤ s1.latest_snapshot.length →
          ∀ f : List Nat → Nat, ∃ ti s2,
            s.try_replace_with indices f = (.ok ti, s2) ∧ ti.pos = inter.headD 0 ∧
            vec_insert_checked (inter.headD 0) s.mem.length s1.latest_snapshot =
              some s2.latest_snapshot) ∧
        (inter.getLastD 0 ≤ s1.latest_snapshot.length →
          ∀ f : List Nat → Nat, ∃ ti s2,
            s.try_replace_at_last_with indices f = (.ok ti, s2) ∧
            ti.pos = inter.getLastD 0 ∧
            vec_insert_checked (inter.getLastD 0) s.mem.length s1.latest_snapshot =
              some s2.latest_snapshot) ∧
        (inter.headD 0 ≤ s1.latest_snapshot.length →
          ∀ v : Nat, ∃ s2,
            s.try_replace indices v = (.ok rem, s2) ∧
            vec_insert_checked (inter.headD 0) s.mem.length s1.latest_snapshot =
              some s2.latest_snapshot) := by
  intro s indices ais hne hres hnodup
  have heq := try_remove_all_eq s indices ais hne hres
  have hlen := resolve_all_ok_length hres
  obtain ⟨hm, _⟩ := try_remove_all_ok_snapshots s indices heq
  have hchecked : remove_loop_checked s.latest_snapshot
      (List.replicate ais.length none) (sort_by_abs ais).reverse =
      some (remove_loop s.latest_snapshot (List.replicate ais.length none)
        (sort_by_abs ais).reverse) :=
    remove_loop_checked_eq _ _ _ (sort_reverse_desc hnodup) (sort_reverse_keys_lt hres)
  rcases ais with _ | ⟨⟨p, a⟩, rest⟩
  · exfalso
    apply hne
    cases indices with
    | nil => rfl
    | cons i is => simp at hlen
  · refine ⟨_, _, _, heq, ?_, ?_, ?_, ?_, ?_, ?_, ?_⟩
    · rw [latest_snapshot_set_latest]
      exact hchecked
    · exact anchor_eq_specAnchorList a (rest.map (fun x => x.2))
    · rfl
    · simp
    · intro hle f
      obtain ⟨ti, s2, hrw, hpos, hlat⟩ :=
        try_replace_choose_ok_parts s indices (fun l => l.headD 0) f heq
      rw [hm] at hlat
      refine ⟨ti, s2, hrw, hpos, ?_⟩
      unfold vec_insert_checked
      rw [if_pos hle, hlat]
    · intro hle f
      obtain ⟨ti, s2, hrw, hpos, hlat⟩ :=
        try_replace_choose_ok_parts s indices (fun l => l.getLastD 0) f heq
      rw [hm] at hlat
      refine ⟨ti, s2, hrw, hpos, ?_⟩
      unfold vec_insert_checked
      rw [if_pos hle, hlat]
    · intro hle v
      obtain ⟨s2, hrw, hlat⟩ := try_replace_ok_parts s indices v heq
      rw [hm] at hlat
      refine ⟨s2, hrw, ?_⟩
      unfold vec_insert_checked
      rw [if_pos hle, hlat]

/-- Counterexample for C6 as stated: the claim quantifies over every
non-empty list of valid, alive coordinates, but on two such lists the Rust
program panics instead of completing the anchored replacement.  On
[10, 20, 30] with coordinates for positions 2 and 0 (valid, alive, distinct)
the removal pass succeeds, leaving a length-1 ordering, yet the anchor
candidate list head is 2, so the replacement calls Vec::insert(2) on a
length-1 vector: the checked insert returns none (Rust panic); no insertion
at the anchor happens.  On [10] with the coordinate for position 0 listed
twice (each valid and alive) the descending removal pass itself calls
Vec::remove(0) on an already empty ordering: the checked removal loop
returns none (Rust panic). -/
theorem C6_counterexample :
    ((TracingVec.fromList [10, 20, 30] : TracingVec Nat).is_alive (.Timeless ⟨2⟩) = true ∧
      (TracingVec.fromList [10, 20, 30] : TracingVec Nat).is_alive (.Timeless ⟨0⟩) = true ∧
      (TracingVec.fromList [10, 20, 30] : TracingVec Nat).resolve_all
          [.Timeless ⟨2⟩, .Timeless ⟨0⟩] = .ok [(0, 2), (1, 0)] ∧
      TracingVec.remove_loop_checked [0, 1, 2] (List.replicate 2 none)
          (TracingVec.sort_by_abs [(0, 2), (1, 0)]).reverse =
        some ([1], [some ⟨2⟩, some ⟨0⟩]) ∧
      vec_insert_checked 2 (3 : Nat) [1] = none) ∧
    ((TracingVec.fromList [10] : TracingVec Nat).is_alive (.Timeless ⟨0⟩) = true ∧
      (TracingVec.fromList [10] : TracingVec Nat).resolve_all
          [.Timeless ⟨0⟩, .Timeless ⟨0⟩] = .ok [(0, 0), (1, 0)] ∧
      TracingVec.remove_loop_checked [0] (List.replicate 2 none)
          (TracingVec.sort_by_abs [(0, 0), (1, 0)]).reverse = none) :=
  ⟨⟨rfl, rfl, rfl, rfl, rfl⟩, ⟨rfl, rfl, rfl⟩⟩

/-- Witness for C6 at concrete inputs. -/
theorem C6_witness :
    ∃ inter rem s1,
      (TracingVec.fromList [10, 20, 30, 40, 50] : TracingVec Nat).try_remove_all
          [.Timeless ⟨1⟩, .Timeless ⟨4⟩] = (.ok (inter, rem), s1) ∧
      TracingVec.remove_loop_checked
          (TracingVec.fromList [10, 20, 30, 40, 50] :
            TracingVec Nat).latest_snapshot (List.replicate 2 none)
          (TracingVec.sort_by_abs [(0, 1), (1, 4)]).reverse =
        some (s1.latest_snapshot,
          (TracingVec.remove_loop
              (TracingVec.fromList [10, 20, 30, 40, 50] :
                TracingVec Nat).latest_snapshot (List.replicate 2 none)
              (TracingVec.sort_by_abs [(0, 1), (1, 4)]).reverse).2) ∧
      inter = specAnchorList ([(0, 1), (1, 4)].map (fun x => x.2)) ∧
      inter.headD 0 = ([(0, 1), (1, 4)].map (fun x => x.2)).headD 0 ∧ inter ≠ [] ∧
      (inter.headD 0 ≤ s1.latest_snapshot.length →
        ∀ f : List Nat → Nat, ∃ ti s2,
          (TracingVec.fromList [10, 20, 30, 40, 50] : TracingVec Nat).try_replace_with
              [.Timeless ⟨1⟩, .Timeless ⟨4⟩] f = (.ok ti, s2) ∧
          ti.pos = inter.headD 0 ∧
          vec_insert_checked (inter.headD 0)
              (TracingVec.fromList [10, 20, 30, 40, 50] : TracingVec Nat).mem.length
              s1.latest_snapshot = some s2.latest_snapshot) ∧
      (inter.getLastD 0 ≤ s1.latest_snapshot.length →
        ∀ f : List Nat → Nat, ∃ ti s2,
          (TracingVec.fromList [10, 20, 30, 40, 50] :
              TracingVec Nat).try_replace_at_last_with
              [.Timeless ⟨1⟩, .Timeless ⟨4⟩] f = (.ok ti, s2) ∧
          ti.pos = inter.getLastD 0 ∧
          vec_insert_checked (inter.getLastD 0)
              (TracingVec.fromList [10, 20, 30, 40, 50] : TracingVec Nat).mem.length
              s1.latest_snapshot = some s2.latest_snapshot) ∧
      (inter.headD 0 ≤ s1.latest_snapshot.length →
        ∀ v : Nat, ∃ s2,
          (TracingVec.fromList [10, 20, 30, 40, 50] : TracingVec Nat).try_replace
              [.Timeless ⟨1⟩, .Timeless ⟨4⟩] v = (.ok rem, s2) ∧
          vec_insert_checked (inter.headD 0)
              (TracingVec.fromList [10, 20, 30, 40, 50] : TracingVec Nat).mem.length
              s1.latest_snapshot = some s2.latest_snapshot) :=
  C6_anchor_candidate_list (TracingVec.fromList [10, 20, 30, 40, 50])
    [.Timeless ⟨1⟩, .Timeless ⟨4⟩] [(0, 1), (1, 4)] (by decide) rfl (by decide)
